import Mathlib

/-!
Verification of the redaction matching and application pipeline of
`epsteinator.py` (function `redact_pdf`, helper `parse_color`).

The PDF engine (PyMuPDF) and Python's `re` module are external
collaborators of the repository.  They are embedded as follows:

* a page is its extracted text (a `String`); a rectangle returned by the
  engine's substring search is identified by the character span it covers;
* `search_for` models PyMuPDF's `Page.search_for`: a left-to-right,
  non-overlapping, case-insensitive substring scan.  MuPDF text search is
  case-insensitive unconditionally; the `flags` argument only selects text
  extraction details (ligatures, whitespace, hyphenation) and no flag value
  implements case folding, so the model ignores it;
* the regular-expression engine is an abstract parameter (`RegexEngine`)
  providing compilation (which may fail with a diagnostic) and `finditer`
  (the list of matched substrings of a text, in scan order);
* the adapter's document open and save operations may fail
  (`Adapter.openResult`, `Adapter.saveErr`), modelling the exceptions the
  Python code catches;
* every adapter/engine interaction of the pipeline is recorded in an event
  trace, so that statements about call order (validation before page
  processing, flatten only on marked pages, handle release) are statements
  about the trace.
-/

namespace Epsteinator

/-! ### Characters and strings -/

/-- ASCII lower-casing of one character (the case folding relevant to the
terms and pages considered here). -/
def lowerChar (c : Char) : Char :=
  if 65 ≤ c.toNat && c.toNat ≤ 90 then Char.ofNat (c.toNat + 32) else c

/-- Lower-case a character list. -/
def lcChars (cs : List Char) : List Char := cs.map lowerChar

/-- `startsList need hay` is true when `need` is an initial segment of `hay`. -/
def startsList : List Char → List Char → Bool
  | [], _ => true
  | _ :: _, [] => false
  | a :: as, b :: bs => a == b && startsList as bs

/-- Python `str.strip` whitespace test (ASCII whitespace). -/
def isSpaceChar (c : Char) : Bool :=
  c == ' ' || c == '\t' || c == '\n' || c == '\r'

/-- Python `str.strip`. -/
def stripChars (cs : List Char) : List Char :=
  ((cs.dropWhile isSpaceChar).reverse.dropWhile isSpaceChar).reverse

/-- Python `str.split(sep)` (single-character separator), accumulator form. -/
def splitOnCharAux (sep : Char) : List Char → List Char → List (List Char)
  | [], acc => [acc.reverse]
  | c :: cs, acc =>
    if c == sep then acc.reverse :: splitOnCharAux sep cs []
    else splitOnCharAux sep cs (c :: acc)

/-- Python `str.split(sep)` (single-character separator). -/
def splitOnChar (sep : Char) (cs : List Char) : List (List Char) :=
  splitOnCharAux sep cs []

/-- `'sep'.join(xs)` on character lists. -/
def joinWith (sep : List Char) : List (List Char) → List Char
  | [] => []
  | [x] => x
  | x :: xs => x ++ sep ++ joinWith sep xs

/-! ### PyMuPDF model: rectangles, pages, search -/

/-- PyMuPDF text flag `TEXT_PRESERVE_LIGATURES` (value 1). -/
def TEXT_PRESERVE_LIGATURES : Nat := 1

/-- PyMuPDF text flag `TEXT_PRESERVE_WHITESPACE` (value 2). -/
def TEXT_PRESERVE_WHITESPACE : Nat := 2

/-- PyMuPDF text flag `TEXT_DEHYPHENATE` (value 16). -/
def TEXT_DEHYPHENATE : Nat := 16

/-- PyMuPDF text flag `TEXT_MEDIABOX_CLIP` (value 64). -/
def TEXT_MEDIABOX_CLIP : Nat := 64

/-- Default flags of `Page.search_for` when the caller passes none. -/
def defaultSearchFlags : Nat :=
  TEXT_DEHYPHENATE ||| TEXT_PRESERVE_WHITESPACE |||
    TEXT_PRESERVE_LIGATURES ||| TEXT_MEDIABOX_CLIP

/-- Python `re.IGNORECASE` (value 2). -/
def RE_IGNORECASE : Nat := 2

/-- A rectangle returned by the engine's substring search, identified by the
character span `[start, stop)` it covers on the page. -/
structure Rect where
  start : Nat
  stop : Nat
deriving DecidableEq, Repr

/-- Fuel-driven left-to-right non-overlapping scan: the spans at which
`need` occurs in `hay`, resuming after each match. -/
def scanAux : Nat → List Char → List Char → Nat → List Rect
  | 0, _, _, _ => []
  | _ + 1, [], _, _ => []
  | fuel + 1, c :: rest, need, pos =>
    if !need.isEmpty && startsList need (c :: rest) then
      ⟨pos, pos + need.length⟩ ::
        scanAux fuel ((c :: rest).drop need.length) need (pos + need.length)
    else
      scanAux fuel rest need (pos + 1)

/-- Spans of the occurrences of `need` in `hay` (non-overlapping,
left-to-right). -/
def scanOccs (hay need : List Char) : List Rect :=
  scanAux (hay.length + 1) hay need 0

/-- Model of PyMuPDF `Page.search_for`: case-insensitive occurrence scan of
`needle` over the page's text.  MuPDF text search is case-insensitive
unconditionally; no value of `flags` selects case-sensitive search (the
flags only control extraction details), hence the model does not consult
them. -/
def search_for (pageText needle : String) (_flags : Nat) : List Rect :=
  scanOccs (lcChars pageText.data) (lcChars needle.data)

/-- Exact-case occurrence scan: the spans the spec's words predict for a
case-sensitive literal search.  Kept only for comparison with
`search_for`, which is what the code actually invokes. -/
def exactOccs (pageText needle : String) : List Rect :=
  scanOccs pageText.data needle.data

/-- A color is an RGB triple of rationals (the source passes float triples
with components in `[0,1]`). -/
abbrev Color := ℚ × ℚ × ℚ

/-- A page: its extracted text plus the pending (not yet applied) redaction
annotations. -/
structure Page where
  text : String
  annots : List (Rect × Color)
deriving DecidableEq, Repr

/-- A freshly opened page with text `t` and no pending annotations. -/
def Page.ofText (t : String) : Page := ⟨t, []⟩

/-- Model of `Page.add_redact_annot`: queue one redaction annotation. -/
def add_redact_annot (p : Page) (r : Rect) (fill : Color) : Page :=
  { p with annots := p.annots ++ [(r, fill)] }

/-- Is character index `i` covered by one of the queued annotations? -/
def covered (annots : List (Rect × Color)) (i : Nat) : Bool :=
  annots.any fun rc => decide (rc.1.start ≤ i) && decide (i < rc.1.stop)

/-- Model of `Page.apply_redactions`: the text under the queued annotation
rectangles is removed permanently and the annotation queue is cleared. -/
def apply_redactions (p : Page) : Page :=
  ⟨⟨(p.text.data.enum.filter fun ic => !covered p.annots ic.1).map Prod.snd⟩, []⟩

/-! ### External collaborators -/

/-- The regular-expression engine (Python's `re` module), abstractly:
`compileErr pat flags` is `some d` when `re.compile(pat, flags)` raises
`re.error` with diagnostic `d`, and `none` when the pattern compiles;
`findIter pat flags text` is the list of matched substrings of
`pattern.finditer(text)`, in scan order. -/
structure RegexEngine where
  compileErr : String → Nat → Option String
  findIter : String → Nat → String → List String

/-- The document-level adapter behaviour for one request: the outcome of
`pymupdf.open` (the pages' texts, or the exception message) and, when
`some`, the exception message raised by `doc.save`. -/
structure Adapter where
  openResult : Except String (List String)
  saveErr : Option String

/-! ### Statistics -/

/-- The key list of the Python dict `{term: 0 for term in terms}`:
insertion order with first occurrences kept. -/
def dictKeys : List String → List String
  | [] => []
  | t :: ts => t :: (dictKeys ts).filter (fun k => k != t)

/-- `stats = {term: 0 for term in terms}`. -/
def initStats (terms : List String) : List (String × Nat) :=
  (dictKeys terms).map fun t => (t, 0)

/-- `stats[term] += n` (the source increments by 1 per marked instance; the
instance loops below call this with `n = 1`). -/
def bump (stats : List (String × Nat)) (t : String) (n : Nat) :
    List (String × Nat) :=
  stats.map fun kv => if kv.1 = t then (kv.1, kv.2 + n) else kv

/-- `stats[t]` (0 when `t` is not a key). -/
def statsLookup (stats : List (String × Nat)) (t : String) : Nat :=
  match stats.find? fun kv => decide (kv.1 = t) with
  | some kv => kv.2
  | none => 0

/-- The sum of the per-term counts. -/
def sumStats (stats : List (String × Nat)) : Nat := (stats.map Prod.snd).sum

/-! ### Events -/

/-- One adapter/engine interaction of the pipeline. -/
inductive Event where
  | openDoc : Event
  | compile : String → Nat → Event
  | getText : Nat → Event
  | search : Nat → String → Event
  | mark : Nat → Rect → Event
  | applyPage : Nat → Event
  | save : String → Event
  | closeDoc : Event
deriving DecidableEq, Repr

/-- Is the event a regex compilation? -/
def isCompileEv : Event → Bool
  | .compile _ _ => true
  | _ => false

/-- Is the event the marking of one region? -/
def isMarkEv : Event → Bool
  | .mark _ _ => true
  | _ => false

/-- Is the event a per-page interaction (text extraction, search, marking,
flattening)? -/
def pageEvent : Event → Bool
  | .getText _ => true
  | .search _ _ => true
  | .mark _ _ => true
  | .applyPage _ => true
  | _ => false

/-- Is the event a substring search? -/
def isSearchEv : Event → Bool
  | .search _ _ => true
  | _ => false

/-- Is the event a text extraction? -/
def isGetTextEv : Event → Bool
  | .getText _ => true
  | _ => false

/-- Is the event a page flattening? -/
def isApplyEv : Event → Bool
  | .applyPage _ => true
  | _ => false

/-- The page index an event concerns, if any. -/
def evPage : Event → Option Nat
  | .getText p => some p
  | .search p _ => some p
  | .mark p _ => some p
  | .applyPage p => some p
  | _ => none

/-- Does the event read or modify the document's pages (as opposed to
opening the document or compiling a pattern)? -/
def touchesDoc (e : Event) : Bool :=
  pageEvent e ||
    (match e with
     | .save _ => true
     | _ => false)

/-- Number of mark events in a trace. -/
def marksIn (evs : List Event) : Nat := (evs.filter isMarkEv).length

/-! ### Results -/

/-- The dictionary `redact_pdf` returns (`success`, and the keys present on
the respective outcome). -/
structure RedactionResult where
  success : Bool
  total_redactions : Nat
  stats : List (String × Nat)
  output_path : Option String
  error : Option String
deriving DecidableEq, Repr

/-- The failure dictionary `{'success': False, 'error': e}`. -/
def failResult (e : String) : RedactionResult :=
  ⟨false, 0, [], none, some e⟩

/-- One full run: the returned result, the document's pages at exit, and the
trace of adapter/engine interactions. -/
structure RedactRun where
  result : RedactionResult
  pages : List Page
  trace : List Event
deriving Repr

/-! ### The output-path default (`pathlib`) -/

/-- `PurePosixPath` parsing: whether the path is absolute, and its
non-empty, non-`"."` segments. -/
def pathParts (p : String) : Bool × List String :=
  let segs := (splitOnChar '/' p.data).map fun cs => (⟨cs⟩ : String)
  (decide (p.data.head? = some '/'),
   segs.filter fun s => !(s == "" || s == "."))

/-- `str()` of a parsed pure path. -/
def renderPath (root : Bool) (parts : List String) : String :=
  if parts.isEmpty then (if root then "/" else ".")
  else (if root then "/" else "") ++ ⟨joinWith ['/'] (parts.map String.data)⟩

/-- `str(Path(p).parent)`. -/
def pyParent (p : String) : String :=
  let rp := pathParts p
  renderPath rp.1 rp.2.dropLast

/-- `Path(nm).stem` applied to a bare file name: the name without its last
extension; a dot at position 0 or at the very end does not start an
extension (pathlib's rule). -/
def stemOf (nm : String) : String :=
  let cs := nm.data
  let n := cs.length
  let idxs := (List.range n).filter fun i =>
    decide (cs.getD i ' ' = '.') && decide (0 < i) && decide (i < n - 1)
  match idxs.getLast? with
  | some i => ⟨cs.take i⟩
  | none => nm

/-- `Path(p).stem`. -/
def pyStem (p : String) : String :=
  stemOf ((pathParts p).2.getLast?.getD "")

/-- `str(Path(dir) / nm)` for a slash-free `nm`. -/
def pyJoin (dir nm : String) : String :=
  let rp := pathParts dir
  renderPath rp.1 (rp.2 ++ [nm])

/-- Line 297: `str(Path(input_path).parent / f"{Path(input_path).stem}_redacted.pdf")`. -/
def defaultOutputPath (input_path : String) : String :=
  pyJoin (pyParent input_path) (pyStem input_path ++ "_redacted.pdf")

/-! ### Color parsing (`parse_color`) -/

/-- Value of a digit string. -/
def natOfDigits (cs : List Char) : Nat :=
  cs.foldl (fun a c => a * 10 + (c.toNat - 48)) 0

/-- Python `float()` on a plain unsigned decimal literal (`digits`,
`digits.`, `digits.digits`, `.digits`); exponent and special forms are not
needed by the texts considered here. -/
def decVal? (cs : List Char) : Option ℚ :=
  let intPart := cs.takeWhile fun c => c != '.'
  let rest := cs.drop intPart.length
  match rest with
  | [] =>
    if !intPart.isEmpty && intPart.all Char.isDigit then
      some (natOfDigits intPart : ℚ)
    else none
  | '.' :: frac =>
    if intPart.all Char.isDigit && frac.all Char.isDigit &&
        (!intPart.isEmpty || !frac.isEmpty) then
      some ((natOfDigits intPart : ℚ) +
        (natOfDigits frac : ℚ) / (10 : ℚ) ^ frac.length)
    else none
  | _ => none

/-- Python `float()` with an optional sign. -/
def pyFloat? (cs : List Char) : Option ℚ :=
  match cs with
  | '+' :: rest => decVal? rest
  | '-' :: rest => (decVal? rest).map Neg.neg
  | _ => decVal? cs

/-- Lines 337-340: split on commas, strip each part, convert each part with
`float()`; defined only when there are exactly three parts and all three
conversions succeed. -/
def parseTriple? (s : String) : Option Color :=
  let parts := (splitOnChar ',' s.data).map stripChars
  if parts.length = 3 then
    match parts.map pyFloat? with
    | [some r, some g, some b] => some (r, g, b)
    | _ => none
  else none

/-- `parse_color` (lines 329-344).  The second component records whether the
`"Invalid color"` warning was printed (the local fallback to black). -/
def parse_color (color_str : String) : Color × Bool :=
  let s : String := ⟨stripChars (lcChars color_str.data)⟩
  if s = "black" then ((0, 0, 0), false)
  else if s = "white" then ((1, 1, 1), false)
  else
    match parseTriple? s with
    | some c => (c, false)
    | none => ((0, 0, 0), true)

/-! ### The pipeline (`redact_pdf`, lines 221-327) -/

/-- Lines 277-279: `TEXT_PRESERVE_WHITESPACE`, with
`TEXT_PRESERVE_LIGATURES` or-ed in when the search is requested
case-insensitive. -/
def literalFlags (cs : Bool) : Nat :=
  if cs then TEXT_PRESERVE_WHITESPACE
  else TEXT_PRESERVE_WHITESPACE ||| TEXT_PRESERVE_LIGATURES

/-- Lines 244-253: compile every term up front, stopping at the first
`re.error`; returns the compile events and the offending term with its
diagnostic, if any. -/
def compileAll (eng : RegexEngine) (reFlags : Nat) :
    List String → List Event × Option (String × String)
  | [] => ([], none)
  | t :: ts =>
    match eng.compileErr t reFlags with
    | some e => ([Event.compile t reFlags], some (t, e))
    | none =>
      let r := compileAll eng reFlags ts
      (Event.compile t reFlags :: r.1, r.2)

/-- The mutable state while one page is processed: the page object, the
stats dict, `page_redactions`, `total_redactions`, and the events emitted
so far. -/
structure RunSt where
  page : Page
  stats : List (String × Nat)
  pageRed : Nat
  total : Nat
  events : List Event
deriving Repr

/-- Lines 269-273 / 284-288: for each returned rectangle, queue a redaction
annotation and increment `stats[term]`, `page_redactions` and
`total_redactions`. -/
def markInstances (fill : Color) (pidx : Nat) (t : String) :
    List Rect → RunSt → RunSt
  | [], s => s
  | r :: rs, s =>
    markInstances fill pidx t rs
      { page := add_redact_annot s.page r fill
        stats := bump s.stats t 1
        pageRed := s.pageRed + 1
        total := s.total + 1
        events := s.events ++ [Event.mark pidx r] }

/-- Lines 265-273: for each regex match, hand the matched substring to the
page's substring search (no explicit flags) and mark every returned
rectangle. -/
def matchLoop (fill : Color) (pidx : Nat) (t : String) :
    List String → RunSt → RunSt
  | [], s => s
  | m :: ms, s =>
    matchLoop fill pidx t ms
      (markInstances fill pidx t (search_for s.page.text m defaultSearchFlags)
        { s with events := s.events ++ [Event.search pidx m] })

/-- Lines 275-288: one literal term on one page. -/
def literalTermStep (cs : Bool) (fill : Color) (pidx : Nat) (t : String)
    (s : RunSt) : RunSt :=
  markInstances fill pidx t (search_for s.page.text t (literalFlags cs))
    { s with events := s.events ++ [Event.search pidx t] }

/-- The literal-mode term loop of one page. -/
def literalLoop (cs : Bool) (fill : Color) (pidx : Nat) :
    List String → RunSt → RunSt
  | [], s => s
  | t :: ts, s => literalLoop cs fill pidx ts (literalTermStep cs fill pidx t s)

/-- The regex-mode term loop of one page (`for term, pattern in patterns`);
matching runs over the page text extracted at the top of the page body. -/
def regexLoop (eng : RegexEngine) (reFlags : Nat) (fill : Color) (pidx : Nat)
    (pageText : String) : List String → RunSt → RunSt
  | [], s => s
  | t :: ts, s =>
    regexLoop eng reFlags fill pidx pageText ts
      (matchLoop fill pidx t (eng.findIter t reFlags pageText) s)

/-- The state at the top of one page's body: the fresh page,
`page_redactions = 0`, and the given stats/total carried over. -/
def startSt (tx : String) (stats : List (String × Nat)) (total : Nat)
    (evs : List Event) : RunSt :=
  ⟨Page.ofText tx, stats, 0, total, evs⟩

/-- Lines 256-288: the term-loop phase of one page: reset
`page_redactions` to 0 and run the term loop of the request's mode (in
regex mode, the page text is extracted first). -/
def pageLoopBody (eng : RegexEngine) (use_regex cs : Bool) (fill : Color)
    (terms : List String) (reFlags : Nat) (pidx : Nat) (tx : String)
    (stats : List (String × Nat)) (total : Nat) : RunSt :=
  if use_regex then
    regexLoop eng reFlags fill pidx tx terms
      (startSt tx stats total [Event.getText pidx])
  else literalLoop cs fill pidx terms (startSt tx stats total [])

/-- Lines 290-293: flatten the page exactly when it accumulated at least
one mark. -/
def flattenStep (pidx : Nat) (s1 : RunSt) : RunSt :=
  if s1.pageRed > 0 then
    { s1 with page := apply_redactions s1.page
              events := s1.events ++ [Event.applyPage pidx] }
  else s1

/-- Lines 256-293: the body of the page loop for one page. -/
def processPage (eng : RegexEngine) (use_regex cs : Bool) (fill : Color)
    (terms : List String) (reFlags : Nat) (pidx : Nat) (tx : String)
    (stats : List (String × Nat)) (total : Nat) : RunSt :=
  flattenStep pidx
    (pageLoopBody eng use_regex cs fill terms reFlags pidx tx stats total)

/-- Everything the page loop produces: the processed pages in order, the
final stats dict and total, and the emitted events. -/
structure LoopOut where
  pages : List Page
  stats : List (String × Nat)
  total : Nat
  events : List Event
deriving Repr

/-- The page loop over the document's pages, threading stats and total. -/
def runPages (eng : RegexEngine) (use_regex cs : Bool) (fill : Color)
    (terms : List String) (reFlags : Nat) :
    Nat → List String → List (String × Nat) → Nat → LoopOut
  | _, [], stats, total => ⟨[], stats, total, []⟩
  | pidx, tx :: rest, stats, total =>
    let s := processPage eng use_regex cs fill terms reFlags pidx tx stats total
    let r := runPages eng use_regex cs fill terms reFlags
      (pidx + 1) rest s.stats s.total
    ⟨s.page :: r.pages, r.stats, r.total, s.events ++ r.events⟩

/-- Lines 295-327 after the page loop: resolve the output path, save
(whose failure takes the exception path, lines 322-327, returning the
failure dictionary without closing the document) and, on success, close
the document and return the success dictionary. -/
def finishRun (ad : Adapter) (cevs : List Event) (out : String)
    (r : LoopOut) : RedactRun :=
  match ad.saveErr with
  | some e => ⟨failResult e, r.pages, Event.openDoc :: (cevs ++ r.events)⟩
  | none =>
    ⟨⟨true, r.total, r.stats, some out, none⟩, r.pages,
     Event.openDoc :: (cevs ++ r.events ++ [Event.save out, Event.closeDoc])⟩

/-- Lines 255-327 given the result `c` of the validation phase: abort with
the `InvalidPatternError`-style failure dictionary if compilation failed
(lines 252-253), otherwise run the page loop on `initStats` and a zero
total and finish. -/
def afterCompile (eng : RegexEngine) (ad : Adapter) (input_path : String)
    (terms : List String) (case_sensitive : Bool) (fill_color : Color)
    (output_path : Option String) (use_regex : Bool) (texts : List String)
    (c : List Event × Option (String × String)) : RedactRun :=
  match c.2 with
  | some te =>
    ⟨failResult ("Invalid regex '" ++ te.1 ++ "': " ++ te.2),
     texts.map Page.ofText, Event.openDoc :: c.1⟩
  | none =>
    finishRun ad c.1 (output_path.getD (defaultOutputPath input_path))
      (runPages eng use_regex case_sensitive fill_color terms
        (if case_sensitive then 0 else RE_IGNORECASE) 0 texts
        (initStats terms) 0)

/-- Lines 240-327 with the document already open: initialize the stats and
total, validate/compile the patterns in regex mode (lines 244-253,
aborting on the first failure), then run the page loop and finish. -/
def afterOpen (eng : RegexEngine) (ad : Adapter) (input_path : String)
    (terms : List String) (case_sensitive : Bool) (fill_color : Color)
    (output_path : Option String) (use_regex : Bool)
    (texts : List String) : RedactRun :=
  afterCompile eng ad input_path terms case_sensitive fill_color
    output_path use_regex texts
    (if use_regex then
      compileAll eng (if case_sensitive then 0 else RE_IGNORECASE) terms
     else ([], none))

/-- `redact_pdf` (lines 221-327).  A failed `pymupdf.open` raises into the
`except` block (lines 322-327) before any handle exists. -/
def redact_pdf (eng : RegexEngine) (ad : Adapter) (input_path : String)
    (terms : List String) (case_sensitive : Bool) (fill_color : Color)
    (output_path : Option String) (use_regex : Bool) : RedactRun :=
  match ad.openResult with
  | Except.error e => ⟨failResult e, [], []⟩
  | Except.ok texts =>
    afterOpen eng ad input_path terms case_sensitive fill_color
      output_path use_regex texts

/-! ### Derived quantities used by the claims -/

/-- In regex mode, the number of rectangles the adapter returns across all
matches of term `t` on a page with text `tx` (each is counted as one
redaction instance). -/
def termPageBoxes (eng : RegexEngine) (reFlags : Nat) (tx t : String) : Nat :=
  ((eng.findIter t reFlags tx).map
    fun m => (search_for tx m defaultSearchFlags).length).sum

/-- The rectangles term `t` produces on a page with text `tx`, in the
request's mode. -/
def pageTermRects (eng : RegexEngine) (use_regex cs : Bool) (reFlags : Nat)
    (tx t : String) : List Rect :=
  if use_regex then
    (eng.findIter t reFlags tx).flatMap fun m => search_for tx m defaultSearchFlags
  else search_for tx t (literalFlags cs)

/-! ### Concrete fixtures for witnesses and counterexamples -/

/-- An adapter whose document opens with the given page texts and saves
without error. -/
def adapterOf (texts : List String) : Adapter := ⟨Except.ok texts, none⟩

/-- An engine for literal-mode fixtures (no pattern ever fails to compile,
no match is ever produced). -/
def noRegex : RegexEngine := ⟨fun _ _ => none, fun _ _ _ => []⟩

/-- A toy regex engine: the single pattern `"("` fails to compile with the
CPython diagnostic, every other pattern is treated as a literal whose
non-overlapping occurrences are its matches. -/
def toyEngine : RegexEngine where
  compileErr t _ :=
    if t = "(" then some "missing ), unterminated subpattern at position 0"
    else none
  findIter t _ tx :=
    (scanOccs tx.data t.data).map fun r =>
      ⟨(tx.data.drop r.start).take (r.stop - r.start)⟩

/-! ### Lemmas: the stats dictionary -/

theorem bump_keys (s : List (String × Nat)) (t : String) (n : Nat) :
    (bump s t n).map Prod.fst = s.map Prod.fst := by
  induction s with
  | nil => rfl
  | cons kv s ih =>
    simp only [bump, List.map_cons] at ih ⊢
    by_cases h : kv.1 = t <;> simp [h, ih]

theorem bump_cons (kv : String × Nat) (s : List (String × Nat)) (t : String)
    (n : Nat) :
    bump (kv :: s) t n =
      (if kv.1 = t then (kv.1, kv.2 + n) else kv) :: bump s t n := rfl

theorem statsLookup_cons_self (kv : String × Nat) (s : List (String × Nat))
    (t : String) (h : kv.1 = t) : statsLookup (kv :: s) t = kv.2 := by
  unfold statsLookup
  rw [List.find?_cons_of_pos _ (by simp [h])]

theorem statsLookup_cons_other (kv : String × Nat) (s : List (String × Nat))
    (t : String) (h : ¬ kv.1 = t) : statsLookup (kv :: s) t = statsLookup s t := by
  unfold statsLookup
  rw [List.find?_cons_of_neg _ (by simp [h])]

theorem sumStats_cons (kv : String × Nat) (s : List (String × Nat)) :
    sumStats (kv :: s) = kv.2 + sumStats s := by
  simp [sumStats]

theorem bump_zero (s : List (String × Nat)) (t : String) : bump s t 0 = s := by
  induction s with
  | nil => rfl
  | cons kv s ih =>
    rw [bump_cons, ih]
    by_cases h : kv.1 = t
    · rw [if_pos h]; exact congrArg (· :: s) (by cases kv; rfl)
    · rw [if_neg h]

theorem bump_bump (s : List (String × Nat)) (t : String) (a b : Nat) :
    bump (bump s t a) t b = bump s t (a + b) := by
  induction s with
  | nil => rfl
  | cons kv s ih =>
    simp only [bump, List.map_cons] at ih ⊢
    by_cases h : kv.1 = t <;> simp [h, ih, Nat.add_assoc]

theorem bump_of_not_mem (s : List (String × Nat)) (t : String) (n : Nat)
    (h : t ∉ s.map Prod.fst) : bump s t n = s := by
  induction s with
  | nil => rfl
  | cons kv s ih =>
    simp only [List.map_cons, List.mem_cons, not_or] at h
    simp only [bump, List.map_cons] at ih ⊢
    have h1 : ¬ kv.1 = t := fun hh => h.1 hh.symm
    simp [h1, ih h.2]

theorem statsLookup_bump_self (s : List (String × Nat)) (t : String) (n : Nat)
    (h : t ∈ s.map Prod.fst) :
    statsLookup (bump s t n) t = statsLookup s t + n := by
  induction s with
  | nil => simp at h
  | cons kv s ih =>
    rw [bump_cons]
    by_cases h1 : kv.1 = t
    · rw [if_pos h1, statsLookup_cons_self _ _ _ h1,
        statsLookup_cons_self (kv.1, kv.2 + n) _ _ h1]
    · rw [if_neg h1, statsLookup_cons_other _ _ _ h1,
        statsLookup_cons_other _ _ _ h1]
      simp only [List.map_cons, List.mem_cons] at h
      rcases h with h | h
      · exact absurd h.symm h1
      · exact ih h

theorem statsLookup_bump_other (s : List (String × Nat)) (t t' : String)
    (n : Nat) (h : t' ≠ t) :
    statsLookup (bump s t n) t' = statsLookup s t' := by
  induction s with
  | nil => rfl
  | cons kv s ih =>
    rw [bump_cons]
    by_cases h1 : kv.1 = t
    · have h2 : ¬ kv.1 = t' := by rw [h1]; exact fun hh => h hh.symm
      rw [if_pos h1, statsLookup_cons_other (kv.1, kv.2 + n) _ _ h2,
        statsLookup_cons_other _ _ _ h2, ih]
    · by_cases h2 : kv.1 = t'
      · rw [if_neg h1, statsLookup_cons_self _ _ _ h2,
          statsLookup_cons_self _ _ _ h2]
      · rw [if_neg h1, statsLookup_cons_other _ _ _ h2,
          statsLookup_cons_other _ _ _ h2, ih]

theorem statsLookup_bump_le (s : List (String × Nat)) (t t' : String)
    (n : Nat) : statsLookup s t' ≤ statsLookup (bump s t n) t' := by
  by_cases h : t' = t
  · subst h
    by_cases hm : t' ∈ s.map Prod.fst
    · rw [statsLookup_bump_self s t' n hm]; omega
    · rw [bump_of_not_mem s t' n hm]
  · rw [statsLookup_bump_other s t t' n h]

theorem sumStats_bump (s : List (String × Nat)) (t : String) (n : Nat)
    (hnd : (s.map Prod.fst).Nodup) (h : t ∈ s.map Prod.fst) :
    sumStats (bump s t n) = sumStats s + n := by
  induction s with
  | nil => simp at h
  | cons kv s ih =>
    simp only [List.map_cons, List.nodup_cons] at hnd
    rw [bump_cons]
    by_cases h1 : kv.1 = t
    · have hnot : t ∉ s.map Prod.fst := h1 ▸ hnd.1
      rw [if_pos h1, bump_of_not_mem s t n hnot, sumStats_cons, sumStats_cons]
      omega
    · simp only [List.map_cons, List.mem_cons] at h
      rcases h with h | h
      · exact absurd h.symm h1
      · rw [if_neg h1, sumStats_cons, sumStats_cons, ih hnd.2 h]
        omega

theorem mem_dictKeys (l : List String) (t : String) :
    t ∈ dictKeys l ↔ t ∈ l := by
  induction l with
  | nil => simp [dictKeys]
  | cons a l ih =>
    by_cases h : t = a
    · simp [dictKeys, h]
    · simp [dictKeys, List.mem_filter, h, ih, bne_iff_ne]

theorem nodup_dictKeys (l : List String) : (dictKeys l).Nodup := by
  induction l with
  | nil => simp [dictKeys]
  | cons a l ih =>
    refine List.Nodup.cons ?_ (ih.filter _)
    intro hmem
    have := List.of_mem_filter hmem
    simp [bne_iff_ne] at this

theorem initStats_keys (terms : List String) :
    (initStats terms).map Prod.fst = dictKeys terms := by
  simp [initStats, List.map_map, Function.comp_def]

theorem statsLookup_zeros (l : List String) (t : String) :
    statsLookup (l.map fun u => (u, 0)) t = 0 := by
  induction l with
  | nil => rfl
  | cons a l ih =>
    by_cases h : a = t
    · rw [List.map_cons, statsLookup_cons_self _ _ _ h]
    · rw [List.map_cons, statsLookup_cons_other _ _ _ h, ih]

theorem statsLookup_initStats (terms : List String) (t : String) :
    statsLookup (initStats terms) t = 0 :=
  statsLookup_zeros (dictKeys terms) t

theorem sumStats_zeros (l : List String) :
    sumStats (l.map fun u => (u, 0)) = 0 := by
  induction l with
  | nil => rfl
  | cons a l ih => rw [List.map_cons, sumStats_cons, ih]

theorem sumStats_initStats (terms : List String) :
    sumStats (initStats terms) = 0 :=
  sumStats_zeros (dictKeys terms)

/-! ### Lemmas: event traces -/

theorem marksIn_append (a b : List Event) :
    marksIn (a ++ b) = marksIn a + marksIn b := by
  simp [marksIn, List.filter_append]

theorem marksIn_marks (pidx : Nat) (rs : List Rect) :
    marksIn (rs.map (Event.mark pidx)) = rs.length := by
  induction rs with
  | nil => rfl
  | cons r rs ih => simp [marksIn, List.filter, isMarkEv] at ih ⊢; omega

theorem marksIn_single_search (pidx : Nat) (m : String) :
    marksIn [Event.search pidx m] = 0 := rfl

theorem mem_of_marksIn_pos (evs : List Event) (h : 0 < marksIn evs) :
    ∃ e ∈ evs, isMarkEv e = true := by
  unfold marksIn at h
  rcases hf : evs.filter isMarkEv with _ | ⟨e, rest⟩
  · rw [hf] at h; simp at h
  · exact ⟨e, List.mem_of_mem_filter (hf ▸ List.mem_cons_self e rest),
      List.of_mem_filter (hf ▸ List.mem_cons_self e rest)⟩

theorem marksIn_eq_zero_of_no_mark (evs : List Event)
    (h : ∀ e ∈ evs, isMarkEv e = false) : marksIn evs = 0 := by
  unfold marksIn
  rw [List.filter_eq_nil_iff.mpr fun e he => by simp [h e he]]
  rfl

/-! ### Lemmas: pattern compilation -/

theorem compileAll_ok (eng : RegexEngine) (rf : Nat) (ts : List String)
    (h : ∀ t ∈ ts, eng.compileErr t rf = none) :
    compileAll eng rf ts = (ts.map fun t => Event.compile t rf, none) := by
  induction ts with
  | nil => rfl
  | cons t ts ih =>
    have ht := h t (List.mem_cons_self t ts)
    simp [compileAll, ht, ih fun u hu => h u (List.mem_cons_of_mem t hu)]

theorem compileAll_err (eng : RegexEngine) (rf : Nat) (ts : List String)
    (t0 msg : String)
    (hfind : ts.find? (fun t => (eng.compileErr t rf).isSome) = some t0)
    (herr : eng.compileErr t0 rf = some msg) :
    (compileAll eng rf ts).2 = some (t0, msg) := by
  induction ts with
  | nil => simp at hfind
  | cons t ts ih =>
    rcases hc : eng.compileErr t rf with _ | e
    · simp only [List.find?, hc, Option.isSome_none] at hfind
      simpa [compileAll, hc] using ih hfind
    · simp only [List.find?, hc, Option.isSome_some] at hfind
      obtain rfl : t = t0 := by simpa using hfind
      rw [hc] at herr
      obtain rfl : e = msg := by simpa using herr
      simp [compileAll, hc]

theorem compileAll_events (eng : RegexEngine) (rf : Nat) (ts : List String) :
    ∀ e ∈ (compileAll eng rf ts).1, isCompileEv e = true := by
  induction ts with
  | nil => simp [compileAll]
  | cons t ts ih =>
    intro e he
    rcases hc : eng.compileErr t rf with _ | d <;> rw [compileAll, hc] at he
    · rcases (List.mem_cons).1 he with rfl | hmem
      · rfl
      · exact ih e hmem
    · simp at he; subst he; rfl

/-! ### Lemmas: the instance-marking loop -/

theorem markInstances_stats (fill : Color) (pidx : Nat) (t : String)
    (rs : List Rect) (s : RunSt) :
    (markInstances fill pidx t rs s).stats = bump s.stats t rs.length := by
  induction rs generalizing s with
  | nil => simp only [markInstances, List.length_nil, bump_zero]
  | cons r rs ih =>
    simp only [markInstances, ih, List.length_cons]
    rw [bump_bump, Nat.add_comm 1 rs.length]

theorem markInstances_total (fill : Color) (pidx : Nat) (t : String)
    (rs : List Rect) (s : RunSt) :
    (markInstances fill pidx t rs s).total = s.total + rs.length := by
  induction rs generalizing s with
  | nil => simp only [markInstances, List.length_nil, Nat.add_zero]
  | cons r rs ih =>
    simp only [markInstances, ih, List.length_cons]
    omega

theorem markInstances_pageRed (fill : Color) (pidx : Nat) (t : String)
    (rs : List Rect) (s : RunSt) :
    (markInstances fill pidx t rs s).pageRed = s.pageRed + rs.length := by
  induction rs generalizing s with
  | nil => simp only [markInstances, List.length_nil, Nat.add_zero]
  | cons r rs ih =>
    simp only [markInstances, ih, List.length_cons]
    omega

theorem markInstances_events (fill : Color) (pidx : Nat) (t : String)
    (rs : List Rect) (s : RunSt) :
    (markInstances fill pidx t rs s).events =
      s.events ++ rs.map (Event.mark pidx) := by
  induction rs generalizing s with
  | nil => simp only [markInstances, List.map_nil, List.append_nil]
  | cons r rs ih =>
    simp only [markInstances, ih, List.map_cons]
    rw [List.append_assoc]
    rfl

theorem markInstances_text (fill : Color) (pidx : Nat) (t : String)
    (rs : List Rect) (s : RunSt) :
    (markInstances fill pidx t rs s).page.text = s.page.text := by
  induction rs generalizing s with
  | nil => rfl
  | cons r rs ih => simp only [markInstances, ih]; rfl

theorem markInstances_marksIn (fill : Color) (pidx : Nat) (t : String)
    (rs : List Rect) (s : RunSt) :
    marksIn (markInstances fill pidx t rs s).events =
      marksIn s.events + rs.length := by
  rw [markInstances_events, marksIn_append, marksIn_marks]

/-! ### Lemmas: the regex match loop -/

theorem matchLoop_text (fill : Color) (pidx : Nat) (t : String)
    (ms : List String) (s : RunSt) :
    (matchLoop fill pidx t ms s).page.text = s.page.text := by
  induction ms generalizing s with
  | nil => rfl
  | cons m ms ih =>
    simp only [matchLoop, ih, markInstances_text]

theorem matchLoop_stats (fill : Color) (pidx : Nat) (t : String)
    (ms : List String) (s : RunSt) :
    (matchLoop fill pidx t ms s).stats =
      bump s.stats t ((ms.map fun m =>
        (search_for s.page.text m defaultSearchFlags).length).sum) := by
  induction ms generalizing s with
  | nil => simp only [matchLoop, List.map_nil, List.sum_nil, bump_zero]
  | cons m ms ih =>
    simp only [matchLoop, ih, markInstances_stats, markInstances_text,
      List.map_cons, List.sum_cons]
    rw [bump_bump, Nat.add_comm]

theorem matchLoop_total (fill : Color) (pidx : Nat) (t : String)
    (ms : List String) (s : RunSt) :
    (matchLoop fill pidx t ms s).total =
      s.total + ((ms.map fun m =>
        (search_for s.page.text m defaultSearchFlags).length).sum) := by
  induction ms generalizing s with
  | nil => simp only [matchLoop, List.map_nil, List.sum_nil, Nat.add_zero]
  | cons m ms ih =>
    simp only [matchLoop, ih, markInstances_total, markInstances_text,
      List.map_cons, List.sum_cons]
    omega

theorem matchLoop_pageRed (fill : Color) (pidx : Nat) (t : String)
    (ms : List String) (s : RunSt) :
    (matchLoop fill pidx t ms s).pageRed =
      s.pageRed + ((ms.map fun m =>
        (search_for s.page.text m defaultSearchFlags).length).sum) := by
  induction ms generalizing s with
  | nil => simp only [matchLoop, List.map_nil, List.sum_nil, Nat.add_zero]
  | cons m ms ih =>
    simp only [matchLoop, ih, markInstances_pageRed, markInstances_text,
      List.map_cons, List.sum_cons]
    omega

theorem matchLoop_marksIn (fill : Color) (pidx : Nat) (t : String)
    (ms : List String) (s : RunSt) :
    marksIn (matchLoop fill pidx t ms s).events =
      marksIn s.events + ((ms.map fun m =>
        (search_for s.page.text m defaultSearchFlags).length).sum) := by
  induction ms generalizing s with
  | nil => simp only [matchLoop, List.map_nil, List.sum_nil, Nat.add_zero]
  | cons m ms ih =>
    simp only [matchLoop, ih, markInstances_marksIn, markInstances_text,
      List.map_cons, List.sum_cons]
    have : marksIn ({ s with events := s.events ++ [Event.search pidx m] } :
        RunSt).events = marksIn s.events := by
      rw [marksIn_append, marksIn_single_search]
      omega
    rw [this]
    omega

theorem matchLoop_events (fill : Color) (pidx : Nat) (t : String)
    (ms : List String) (s : RunSt) :
    ∀ e ∈ (matchLoop fill pidx t ms s).events,
      e ∈ s.events ∨
        ((isMarkEv e || isSearchEv e) = true ∧ evPage e = some pidx) := by
  induction ms generalizing s with
  | nil => intro e he; exact Or.inl he
  | cons m ms ih =>
    intro e he
    rcases ih _ e he with hmem | hpe
    · rw [markInstances_events] at hmem
      rcases List.mem_append.1 hmem with hmem | hmem
      · rcases List.mem_append.1 hmem with h | h
        · exact Or.inl h
        · simp only [List.mem_singleton] at h
          subst h
          exact Or.inr (by simp [isSearchEv, evPage])
      · simp only [List.mem_map] at hmem
        obtain ⟨r, _, rfl⟩ := hmem
        exact Or.inr (by simp [isMarkEv, evPage])
    · exact Or.inr hpe

theorem matchLoop_keys (fill : Color) (pidx : Nat) (t : String)
    (ms : List String) (s : RunSt) :
    (matchLoop fill pidx t ms s).stats.map Prod.fst =
      s.stats.map Prod.fst := by
  rw [matchLoop_stats, bump_keys]

theorem matchLoop_le (fill : Color) (pidx : Nat) (t t' : String)
    (ms : List String) (s : RunSt) :
    statsLookup s.stats t' ≤ statsLookup (matchLoop fill pidx t ms s).stats t' := by
  rw [matchLoop_stats]
  exact statsLookup_bump_le _ _ _ _

theorem matchLoop_noop (fill : Color) (pidx : Nat) (t : String)
    (ms : List String) (s : RunSt)
    (h : ∀ m ∈ ms, search_for s.page.text m defaultSearchFlags = []) :
    (matchLoop fill pidx t ms s).page = s.page ∧
      (matchLoop fill pidx t ms s).stats = s.stats ∧
      (matchLoop fill pidx t ms s).pageRed = s.pageRed ∧
      (matchLoop fill pidx t ms s).total = s.total := by
  induction ms generalizing s with
  | nil => exact ⟨rfl, rfl, rfl, rfl⟩
  | cons m ms ih =>
    have hm := h m (List.mem_cons_self m ms)
    have step : markInstances fill pidx t
        (search_for s.page.text m defaultSearchFlags)
        { s with events := s.events ++ [Event.search pidx m] } =
        { s with events := s.events ++ [Event.search pidx m] } := by
      rw [hm]; rfl
    have := ih { s with events := s.events ++ [Event.search pidx m] }
      (fun m' hm' => h m' (List.mem_cons_of_mem m hm'))
    simpa only [matchLoop, step] using this

/-! ### Lemmas: the literal term step -/

theorem literalTermStep_text (cs : Bool) (fill : Color) (pidx : Nat)
    (t : String) (s : RunSt) :
    (literalTermStep cs fill pidx t s).page.text = s.page.text := by
  unfold literalTermStep
  rw [markInstances_text]

theorem literalTermStep_stats (cs : Bool) (fill : Color) (pidx : Nat)
    (t : String) (s : RunSt) :
    (literalTermStep cs fill pidx t s).stats =
      bump s.stats t (search_for s.page.text t (literalFlags cs)).length := by
  unfold literalTermStep
  rw [markInstances_stats]

theorem literalTermStep_total (cs : Bool) (fill : Color) (pidx : Nat)
    (t : String) (s : RunSt) :
    (literalTermStep cs fill pidx t s).total =
      s.total + (search_for s.page.text t (literalFlags cs)).length := by
  unfold literalTermStep
  rw [markInstances_total]

theorem literalTermStep_pageRed (cs : Bool) (fill : Color) (pidx : Nat)
    (t : String) (s : RunSt) :
    (literalTermStep cs fill pidx t s).pageRed =
      s.pageRed + (search_for s.page.text t (literalFlags cs)).length := by
  unfold literalTermStep
  rw [markInstances_pageRed]

theorem literalTermStep_marksIn (cs : Bool) (fill : Color) (pidx : Nat)
    (t : String) (s : RunSt) :
    marksIn (literalTermStep cs fill pidx t s).events =
      marksIn s.events + (search_for s.page.text t (literalFlags cs)).length := by
  unfold literalTermStep
  rw [markInstances_marksIn]
  have : marksIn ({ s with events := s.events ++ [Event.search pidx t] } :
      RunSt).events = marksIn s.events := by
    rw [marksIn_append, marksIn_single_search]
    omega
  rw [this]

theorem literalTermStep_events (cs : Bool) (fill : Color) (pidx : Nat)
    (t : String) (s : RunSt) :
    ∀ e ∈ (literalTermStep cs fill pidx t s).events,
      e ∈ s.events ∨
        ((isMarkEv e || isSearchEv e) = true ∧ evPage e = some pidx) := by
  intro e he
  unfold literalTermStep at he
  rw [markInstances_events] at he
  rcases List.mem_append.1 he with hmem | hmem
  · rcases List.mem_append.1 hmem with h | h
    · exact Or.inl h
    · simp only [List.mem_singleton] at h
      subst h
      exact Or.inr (by simp [isSearchEv, evPage])
  · simp only [List.mem_map] at hmem
    obtain ⟨r, _, rfl⟩ := hmem
    exact Or.inr (by simp [isMarkEv, evPage])

/-! ### Lemmas: the literal term loop -/

theorem literalLoop_text (cs : Bool) (fill : Color) (pidx : Nat)
    (ts : List String) (s : RunSt) :
    (literalLoop cs fill pidx ts s).page.text = s.page.text := by
  induction ts generalizing s with
  | nil => rfl
  | cons t ts ih =>
    simp only [literalLoop, ih, literalTermStep_text]

theorem literalLoop_keys (cs : Bool) (fill : Color) (pidx : Nat)
    (ts : List String) (s : RunSt) :
    (literalLoop cs fill pidx ts s).stats.map Prod.fst =
      s.stats.map Prod.fst := by
  induction ts generalizing s with
  | nil => rfl
  | cons t ts ih =>
    simp only [literalLoop, ih, literalTermStep_stats, bump_keys]

theorem literalLoop_le (cs : Bool) (fill : Color) (pidx : Nat)
    (ts : List String) (s : RunSt) (t' : String) :
    statsLookup s.stats t' ≤
      statsLookup (literalLoop cs fill pidx ts s).stats t' := by
  induction ts generalizing s with
  | nil => exact Nat.le_refl _
  | cons t ts ih =>
    simp only [literalLoop]
    refine Nat.le_trans ?_ (ih _)
    rw [literalTermStep_stats]
    exact statsLookup_bump_le _ _ _ _

theorem literalLoop_sum (cs : Bool) (fill : Color) (pidx : Nat)
    (ts : List String) (s : RunSt)
    (hnd : (s.stats.map Prod.fst).Nodup)
    (hmem : ∀ u ∈ ts, u ∈ s.stats.map Prod.fst) :
    sumStats (literalLoop cs fill pidx ts s).stats + s.total =
      sumStats s.stats + (literalLoop cs fill pidx ts s).total := by
  induction ts generalizing s with
  | nil => rfl
  | cons t ts ih =>
    simp only [literalLoop]
    have ht : t ∈ s.stats.map Prod.fst := hmem t (List.mem_cons_self t ts)
    have h1 : sumStats (literalTermStep cs fill pidx t s).stats =
        sumStats s.stats +
          (search_for s.page.text t (literalFlags cs)).length := by
      rw [literalTermStep_stats]
      exact sumStats_bump _ _ _ hnd ht
    have h2 := literalTermStep_total cs fill pidx t s
    have hkeys : (literalTermStep cs fill pidx t s).stats.map Prod.fst =
        s.stats.map Prod.fst := by
      rw [literalTermStep_stats, bump_keys]
    have hnd' : ((literalTermStep cs fill pidx t s).stats.map
        Prod.fst).Nodup := by rw [hkeys]; exact hnd
    have hmem' : ∀ u ∈ ts,
        u ∈ (literalTermStep cs fill pidx t s).stats.map Prod.fst := by
      intro u hu
      rw [hkeys]
      exact hmem u (List.mem_cons_of_mem t hu)
    have h3 := ih (literalTermStep cs fill pidx t s) hnd' hmem'
    omega

theorem literalLoop_marksRed (cs : Bool) (fill : Color) (pidx : Nat)
    (ts : List String) (s : RunSt) :
    marksIn (literalLoop cs fill pidx ts s).events + s.pageRed =
      marksIn s.events + (literalLoop cs fill pidx ts s).pageRed := by
  induction ts generalizing s with
  | nil => rfl
  | cons t ts ih =>
    simp only [literalLoop]
    have h1 := literalTermStep_marksIn cs fill pidx t s
    have h2 := literalTermStep_pageRed cs fill pidx t s
    have h3 := ih (literalTermStep cs fill pidx t s)
    omega

theorem literalLoop_marksTotal (cs : Bool) (fill : Color) (pidx : Nat)
    (ts : List String) (s : RunSt) :
    marksIn (literalLoop cs fill pidx ts s).events + s.total =
      marksIn s.events + (literalLoop cs fill pidx ts s).total := by
  induction ts generalizing s with
  | nil => rfl
  | cons t ts ih =>
    simp only [literalLoop]
    have h1 := literalTermStep_marksIn cs fill pidx t s
    have h2 := literalTermStep_total cs fill pidx t s
    have h3 := ih (literalTermStep cs fill pidx t s)
    omega

theorem literalLoop_events (cs : Bool) (fill : Color) (pidx : Nat)
    (ts : List String) (s : RunSt) :
    ∀ e ∈ (literalLoop cs fill pidx ts s).events,
      e ∈ s.events ∨
        ((isMarkEv e || isSearchEv e) = true ∧ evPage e = some pidx) := by
  induction ts generalizing s with
  | nil => intro e he; exact Or.inl he
  | cons t ts ih =>
    intro e he
    rcases ih _ e he with hmem | hpe
    · exact literalTermStep_events cs fill pidx t s e hmem
    · exact Or.inr hpe

theorem literalLoop_noop (cs : Bool) (fill : Color) (pidx : Nat)
    (ts : List String) (s : RunSt)
    (h : ∀ u ∈ ts, search_for s.page.text u (literalFlags cs) = []) :
    (literalLoop cs fill pidx ts s).page = s.page ∧
      (literalLoop cs fill pidx ts s).stats = s.stats ∧
      (literalLoop cs fill pidx ts s).pageRed = s.pageRed ∧
      (literalLoop cs fill pidx ts s).total = s.total := by
  induction ts generalizing s with
  | nil => exact ⟨rfl, rfl, rfl, rfl⟩
  | cons t ts ih =>
    have ht := h t (List.mem_cons_self t ts)
    have hstep : literalTermStep cs fill pidx t s =
        { s with events := s.events ++ [Event.search pidx t] } := by
      unfold literalTermStep
      rw [ht]
      rfl
    have hrest : ∀ u ∈ ts,
        search_for ({ s with events := s.events ++ [Event.search pidx t] } :
          RunSt).page.text u (literalFlags cs) = [] := by
      intro u hu
      exact h u (List.mem_cons_of_mem t hu)
    have h3 := ih _ hrest
    simp only [literalLoop, hstep]
    exact h3

/-! ### Lemmas: the regex term loop -/

theorem regexLoop_text (eng : RegexEngine) (reFlags : Nat) (fill : Color)
    (pidx : Nat) (pageText : String) (ts : List String) (s : RunSt) :
    (regexLoop eng reFlags fill pidx pageText ts s).page.text =
      s.page.text := by
  induction ts generalizing s with
  | nil => rfl
  | cons t ts ih =>
    simp only [regexLoop, ih, matchLoop_text]

theorem regexLoop_keys (eng : RegexEngine) (reFlags : Nat) (fill : Color)
    (pidx : Nat) (pageText : String) (ts : List String) (s : RunSt) :
    (regexLoop eng reFlags fill pidx pageText ts s).stats.map Prod.fst =
      s.stats.map Prod.fst := by
  induction ts generalizing s with
  | nil => rfl
  | cons t ts ih =>
    simp only [regexLoop, ih, matchLoop_keys]

theorem regexLoop_le (eng : RegexEngine) (reFlags : Nat) (fill : Color)
    (pidx : Nat) (pageText : String) (ts : List String) (s : RunSt)
    (t' : String) :
    statsLookup s.stats t' ≤
      statsLookup (regexLoop eng reFlags fill pidx pageText ts s).stats t' := by
  induction ts generalizing s with
  | nil => exact Nat.le_refl _
  | cons t ts ih =>
    simp only [regexLoop]
    exact Nat.le_trans (matchLoop_le fill pidx t t' _ s) (ih _)

theorem regexLoop_sum (eng : RegexEngine) (reFlags : Nat) (fill : Color)
    (pidx : Nat) (pageText : String) (ts : List String) (s : RunSt)
    (hnd : (s.stats.map Prod.fst).Nodup)
    (hmem : ∀ u ∈ ts, u ∈ s.stats.map Prod.fst) :
    sumStats (regexLoop eng reFlags fill pidx pageText ts s).stats + s.total =
      sumStats s.stats +
        (regexLoop eng reFlags fill pidx pageText ts s).total := by
  induction ts generalizing s with
  | nil => rfl
  | cons t ts ih =>
    simp only [regexLoop]
    have ht : t ∈ s.stats.map Prod.fst := hmem t (List.mem_cons_self t ts)
    have h1 : sumStats (matchLoop fill pidx t
        (eng.findIter t reFlags pageText) s).stats =
        sumStats s.stats + ((eng.findIter t reFlags pageText).map fun m =>
          (search_for s.page.text m defaultSearchFlags).length).sum := by
      rw [matchLoop_stats]
      exact sumStats_bump _ _ _ hnd ht
    have h2 := matchLoop_total fill pidx t (eng.findIter t reFlags pageText) s
    have hkeys := matchLoop_keys fill pidx t (eng.findIter t reFlags pageText) s
    have hnd' : ((matchLoop fill pidx t (eng.findIter t reFlags pageText)
        s).stats.map Prod.fst).Nodup := by rw [hkeys]; exact hnd
    have hmem' : ∀ u ∈ ts, u ∈ (matchLoop fill pidx t
        (eng.findIter t reFlags pageText) s).stats.map Prod.fst := by
      intro u hu
      rw [hkeys]
      exact hmem u (List.mem_cons_of_mem t hu)
    have h3 := ih (matchLoop fill pidx t (eng.findIter t reFlags pageText) s)
      hnd' hmem'
    omega

theorem regexLoop_marksRed (eng : RegexEngine) (reFlags : Nat) (fill : Color)
    (pidx : Nat) (pageText : String) (ts : List String) (s : RunSt) :
    marksIn (regexLoop eng reFlags fill pidx pageText ts s).events +
        s.pageRed =
      marksIn s.events +
        (regexLoop eng reFlags fill pidx pageText ts s).pageRed := by
  induction ts generalizing s with
  | nil => rfl
  | cons t ts ih =>
    simp only [regexLoop]
    have h1 := matchLoop_marksIn fill pidx t (eng.findIter t reFlags pageText) s
    have h2 := matchLoop_pageRed fill pidx t (eng.findIter t reFlags pageText) s
    have h3 := ih (matchLoop fill pidx t (eng.findIter t reFlags pageText) s)
    omega

theorem regexLoop_marksTotal (eng : RegexEngine) (reFlags : Nat) (fill : Color)
    (pidx : Nat) (pageText : String) (ts : List String) (s : RunSt) :
    marksIn (regexLoop eng reFlags fill pidx pageText ts s).events + s.total =
      marksIn s.events +
        (regexLoop eng reFlags fill pidx pageText ts s).total := by
  induction ts generalizing s with
  | nil => rfl
  | cons t ts ih =>
    simp only [regexLoop]
    have h1 := matchLoop_marksIn fill pidx t (eng.findIter t reFlags pageText) s
    have h2 := matchLoop_total fill pidx t (eng.findIter t reFlags pageText) s
    have h3 := ih (matchLoop fill pidx t (eng.findIter t reFlags pageText) s)
    omega

theorem regexLoop_events (eng : RegexEngine) (reFlags : Nat) (fill : Color)
    (pidx : Nat) (pageText : String) (ts : List String) (s : RunSt) :
    ∀ e ∈ (regexLoop eng reFlags fill pidx pageText ts s).events,
      e ∈ s.events ∨
        ((isMarkEv e || isSearchEv e) = true ∧ evPage e = some pidx) := by
  induction ts generalizing s with
  | nil => intro e he; exact Or.inl he
  | cons t ts ih =>
    intro e he
    rcases ih _ e he with hmem | hpe
    · exact matchLoop_events fill pidx t (eng.findIter t reFlags pageText) s
        e hmem
    · exact Or.inr hpe

theorem regexLoop_noop (eng : RegexEngine) (reFlags : Nat) (fill : Color)
    (pidx : Nat) (pageText : String) (ts : List String) (s : RunSt)
    (htext : s.page.text = pageText)
    (h : ∀ u ∈ ts, ∀ m ∈ eng.findIter u reFlags pageText,
      search_for pageText m defaultSearchFlags = []) :
    (regexLoop eng reFlags fill pidx pageText ts s).page = s.page ∧
      (regexLoop eng reFlags fill pidx pageText ts s).stats = s.stats ∧
      (regexLoop eng reFlags fill pidx pageText ts s).pageRed = s.pageRed ∧
      (regexLoop eng reFlags fill pidx pageText ts s).total = s.total := by
  induction ts generalizing s with
  | nil => exact ⟨rfl, rfl, rfl, rfl⟩
  | cons t ts ih =>
    have hms : ∀ m ∈ eng.findIter t reFlags pageText,
        search_for s.page.text m defaultSearchFlags = [] := by
      intro m hm
      rw [htext]
      exact h t (List.mem_cons_self t ts) m hm
    have hno := matchLoop_noop fill pidx t (eng.findIter t reFlags pageText)
      s hms
    have htext' : (matchLoop fill pidx t (eng.findIter t reFlags pageText)
        s).page.text = pageText := by rw [matchLoop_text, htext]
    have h3 := ih (matchLoop fill pidx t (eng.findIter t reFlags pageText) s)
      htext' (fun u hu => h u (List.mem_cons_of_mem t hu))
    simp only [regexLoop]
    exact ⟨h3.1.trans hno.1, h3.2.1.trans hno.2.1,
      h3.2.2.1.trans hno.2.2.1, h3.2.2.2.trans hno.2.2.2⟩

theorem regexLoop_lookup (eng : RegexEngine) (reFlags : Nat) (fill : Color)
    (pidx : Nat) (pageText : String) (ts : List String) (s : RunSt)
    (t : String) (hnd : ts.Nodup) (hkeys : t ∈ s.stats.map Prod.fst)
    (htext : s.page.text = pageText) :
    statsLookup (regexLoop eng reFlags fill pidx pageText ts s).stats t =
      statsLookup s.stats t +
        (if t ∈ ts then termPageBoxes eng reFlags pageText t else 0) := by
  induction ts generalizing s with
  | nil => simp [regexLoop]
  | cons u ts ih =>
    simp only [regexLoop]
    have hstep := matchLoop_stats fill pidx u (eng.findIter u reFlags pageText) s
    have htext' : (matchLoop fill pidx u (eng.findIter u reFlags pageText)
        s).page.text = pageText := by rw [matchLoop_text, htext]
    have hkeys' : t ∈ (matchLoop fill pidx u (eng.findIter u reFlags pageText)
        s).stats.map Prod.fst := by rw [matchLoop_keys]; exact hkeys
    have hnd' : ts.Nodup := (List.nodup_cons.1 hnd).2
    rw [ih _ hnd' hkeys' htext']
    by_cases hut : t = u
    · subst hut
      have hnotin : t ∉ ts := (List.nodup_cons.1 hnd).1
      rw [if_pos (List.mem_cons_self t ts), if_neg hnotin]
      rw [hstep, statsLookup_bump_self _ _ _ hkeys, htext]
      simp [termPageBoxes]
    · rw [hstep, statsLookup_bump_other _ _ _ _ hut]
      by_cases htm : t ∈ ts
      · rw [if_pos htm, if_pos (List.mem_cons_of_mem u htm)]
      · rw [if_neg htm, if_neg (by simp [hut, htm])]

/-! ### Lemmas: one page's body and the conditional flatten -/

theorem marksIn_nil : marksIn [] = 0 := rfl

theorem marksIn_getText (p : Nat) : marksIn [Event.getText p] = 0 := rfl

theorem marksIn_pos_of_mem (evs : List Event) (e : Event) (he : e ∈ evs)
    (hm : isMarkEv e = true) : 0 < marksIn evs := by
  unfold marksIn
  have hmem : e ∈ evs.filter isMarkEv := List.mem_filter.2 ⟨he, hm⟩
  exact List.length_pos.2 fun hnil => by rw [hnil] at hmem; simp at hmem

theorem flatMap_eq_nil_forall {α β : Type} (f : α → List β) (l : List α)
    (h : l.flatMap f = []) : ∀ a ∈ l, f a = [] := by
  induction l with
  | nil => intro a ha; simp at ha
  | cons b l ih =>
    intro a ha
    rw [List.flatMap_cons] at h
    rcases List.append_eq_nil.1 h with ⟨h1, h2⟩
    rcases List.mem_cons.1 ha with rfl | ha
    · exact h1
    · exact ih h2 a ha

theorem literalLoop_marks_zero (cs : Bool) (fill : Color) (pidx : Nat)
    (ts : List String) (s : RunSt) (h0 : s.pageRed = 0)
    (h1 : marksIn s.events = 0) :
    marksIn (literalLoop cs fill pidx ts s).events =
      (literalLoop cs fill pidx ts s).pageRed := by
  have h := literalLoop_marksRed cs fill pidx ts s
  omega

theorem regexLoop_marks_zero (eng : RegexEngine) (reFlags : Nat)
    (fill : Color) (pidx : Nat) (pageText : String) (ts : List String)
    (s : RunSt) (h0 : s.pageRed = 0) (h1 : marksIn s.events = 0) :
    marksIn (regexLoop eng reFlags fill pidx pageText ts s).events =
      (regexLoop eng reFlags fill pidx pageText ts s).pageRed := by
  have h := regexLoop_marksRed eng reFlags fill pidx pageText ts s
  omega

theorem literalLoop_marksTotal_zero (cs : Bool) (fill : Color) (pidx : Nat)
    (ts : List String) (s : RunSt) (h1 : marksIn s.events = 0) :
    marksIn (literalLoop cs fill pidx ts s).events + s.total =
      (literalLoop cs fill pidx ts s).total := by
  have h := literalLoop_marksTotal cs fill pidx ts s
  omega

theorem regexLoop_marksTotal_zero (eng : RegexEngine) (reFlags : Nat)
    (fill : Color) (pidx : Nat) (pageText : String) (ts : List String)
    (s : RunSt) (h1 : marksIn s.events = 0) :
    marksIn (regexLoop eng reFlags fill pidx pageText ts s).events + s.total =
      (regexLoop eng reFlags fill pidx pageText ts s).total := by
  have h := regexLoop_marksTotal eng reFlags fill pidx pageText ts s
  omega

theorem pageLoopBody_keys (eng : RegexEngine) (u cs : Bool) (fill : Color)
    (terms : List String) (reFlags pidx : Nat) (tx : String)
    (stats : List (String × Nat)) (total : Nat) :
    (pageLoopBody eng u cs fill terms reFlags pidx tx stats
      total).stats.map Prod.fst = stats.map Prod.fst := by
  cases u
  · exact literalLoop_keys cs fill pidx terms (startSt tx stats total [])
  · exact regexLoop_keys eng reFlags fill pidx tx terms
      (startSt tx stats total [Event.getText pidx])

theorem pageLoopBody_le (eng : RegexEngine) (u cs : Bool) (fill : Color)
    (terms : List String) (reFlags pidx : Nat) (tx : String)
    (stats : List (String × Nat)) (total : Nat) (t' : String) :
    statsLookup stats t' ≤
      statsLookup (pageLoopBody eng u cs fill terms reFlags pidx tx stats
        total).stats t' := by
  cases u
  · exact literalLoop_le cs fill pidx terms (startSt tx stats total []) t'
  · exact regexLoop_le eng reFlags fill pidx tx terms
      (startSt tx stats total [Event.getText pidx]) t'

theorem pageLoopBody_sum (eng : RegexEngine) (u cs : Bool) (fill : Color)
    (terms : List String) (reFlags pidx : Nat) (tx : String)
    (stats : List (String × Nat)) (total : Nat)
    (hnd : (stats.map Prod.fst).Nodup)
    (hmem : ∀ t ∈ terms, t ∈ stats.map Prod.fst) :
    sumStats (pageLoopBody eng u cs fill terms reFlags pidx tx stats
        total).stats + total =
      sumStats stats +
        (pageLoopBody eng u cs fill terms reFlags pidx tx stats
          total).total := by
  cases u
  · exact literalLoop_sum cs fill pidx terms (startSt tx stats total [])
      hnd hmem
  · exact regexLoop_sum eng reFlags fill pidx tx terms
      (startSt tx stats total [Event.getText pidx]) hnd hmem

theorem pageLoopBody_marks (eng : RegexEngine) (u cs : Bool) (fill : Color)
    (terms : List String) (reFlags pidx : Nat) (tx : String)
    (stats : List (String × Nat)) (total : Nat) :
    marksIn (pageLoopBody eng u cs fill terms reFlags pidx tx stats
        total).events =
      (pageLoopBody eng u cs fill terms reFlags pidx tx stats
        total).pageRed := by
  cases u
  · exact literalLoop_marks_zero cs fill pidx terms
      (startSt tx stats total []) rfl rfl
  · exact regexLoop_marks_zero eng reFlags fill pidx tx terms
      (startSt tx stats total [Event.getText pidx]) rfl rfl

theorem pageLoopBody_marksTotal (eng : RegexEngine) (u cs : Bool)
    (fill : Color) (terms : List String) (reFlags pidx : Nat) (tx : String)
    (stats : List (String × Nat)) (total : Nat) :
    marksIn (pageLoopBody eng u cs fill terms reFlags pidx tx stats
        total).events + total =
      (pageLoopBody eng u cs fill terms reFlags pidx tx stats
        total).total := by
  cases u
  · exact literalLoop_marksTotal_zero cs fill pidx terms
      (startSt tx stats total []) rfl
  · exact regexLoop_marksTotal_zero eng reFlags fill pidx tx terms
      (startSt tx stats total [Event.getText pidx]) rfl

theorem pageLoopBody_events (eng : RegexEngine) (u cs : Bool) (fill : Color)
    (terms : List String) (reFlags pidx : Nat) (tx : String)
    (stats : List (String × Nat)) (total : Nat) :
    ∀ e ∈ (pageLoopBody eng u cs fill terms reFlags pidx tx stats
        total).events,
      (isMarkEv e || isSearchEv e || isGetTextEv e) = true ∧
        evPage e = some pidx := by
  cases u
  · intro e he
    rcases literalLoop_events cs fill pidx terms (startSt tx stats total [])
        e he with hmem | ⟨h1, h2⟩
    · simp [startSt] at hmem
    · refine ⟨?_, h2⟩
      rcases Bool.or_eq_true_iff.1 h1 with h | h <;> simp [h]
  · intro e he
    rcases regexLoop_events eng reFlags fill pidx tx terms
        (startSt tx stats total [Event.getText pidx]) e he with hmem | ⟨h1, h2⟩
    · simp only [startSt, List.mem_singleton] at hmem
      subst hmem
      exact ⟨by simp [isGetTextEv], by simp [evPage]⟩
    · refine ⟨?_, h2⟩
      rcases Bool.or_eq_true_iff.1 h1 with h | h <;> simp [h]

theorem pageLoopBody_noop (eng : RegexEngine) (u cs : Bool) (fill : Color)
    (terms : List String) (reFlags pidx : Nat) (tx : String)
    (stats : List (String × Nat)) (total : Nat)
    (h : ∀ t ∈ terms, pageTermRects eng u cs reFlags tx t = []) :
    (pageLoopBody eng u cs fill terms reFlags pidx tx stats total).page =
        Page.ofText tx ∧
      (pageLoopBody eng u cs fill terms reFlags pidx tx stats total).stats =
        stats ∧
      (pageLoopBody eng u cs fill terms reFlags pidx tx stats total).pageRed =
        0 ∧
      (pageLoopBody eng u cs fill terms reFlags pidx tx stats total).total =
        total := by
  cases u
  · have h' : ∀ t ∈ terms,
        search_for (startSt tx stats total []).page.text t
          (literalFlags cs) = [] := by
      intro t ht
      have := h t ht
      simpa [pageTermRects, startSt, Page.ofText] using this
    exact literalLoop_noop cs fill pidx terms (startSt tx stats total []) h'
  · have h' : ∀ t ∈ terms, ∀ m ∈ eng.findIter t reFlags tx,
        search_for tx m defaultSearchFlags = [] := by
      intro t ht m hm
      have := h t ht
      simp only [pageTermRects, if_pos rfl] at this
      exact flatMap_eq_nil_forall _ _ this m hm
    exact regexLoop_noop eng reFlags fill pidx tx terms
      (startSt tx stats total [Event.getText pidx]) rfl h'

theorem pageLoopBody_regex_lookup (eng : RegexEngine) (cs : Bool)
    (fill : Color) (terms : List String) (reFlags pidx : Nat) (tx : String)
    (stats : List (String × Nat)) (total : Nat) (t : String)
    (hnd : terms.Nodup) (ht : t ∈ terms) (hkeys : t ∈ stats.map Prod.fst) :
    statsLookup (pageLoopBody eng true cs fill terms reFlags pidx tx stats
        total).stats t =
      statsLookup stats t + termPageBoxes eng reFlags tx t := by
  have h := regexLoop_lookup eng reFlags fill pidx tx terms
    (startSt tx stats total [Event.getText pidx]) t hnd hkeys rfl
  rw [if_pos ht] at h
  exact h

theorem flattenStep_stats (pidx : Nat) (s : RunSt) :
    (flattenStep pidx s).stats = s.stats := by
  unfold flattenStep
  split <;> rfl

theorem flattenStep_total (pidx : Nat) (s : RunSt) :
    (flattenStep pidx s).total = s.total := by
  unfold flattenStep
  split <;> rfl

theorem flattenStep_marksIn (pidx : Nat) (s : RunSt) :
    marksIn (flattenStep pidx s).events = marksIn s.events := by
  unfold flattenStep
  split
  · rw [marksIn_append]
    have : marksIn [Event.applyPage pidx] = 0 := rfl
    omega
  · rfl

theorem flattenStep_events (pidx : Nat) (s : RunSt) :
    ∀ e ∈ (flattenStep pidx s).events,
      e ∈ s.events ∨ e = Event.applyPage pidx := by
  unfold flattenStep
  split
  · intro e he
    rcases List.mem_append.1 he with h | h
    · exact Or.inl h
    · simp only [List.mem_singleton] at h
      exact Or.inr h
  · intro e he
    exact Or.inl he

theorem flattenStep_of_zero (pidx : Nat) (s : RunSt) (h : s.pageRed = 0) :
    flattenStep pidx s = s := by
  unfold flattenStep
  rw [if_neg (by omega)]

theorem flattenStep_apply_mem (pidx : Nat) (s : RunSt) (h : 0 < s.pageRed) :
    Event.applyPage pidx ∈ (flattenStep pidx s).events := by
  unfold flattenStep
  rw [if_pos h]
  exact List.mem_append.2 (Or.inr (List.mem_singleton.2 rfl))

theorem flattenStep_sub_events (pidx : Nat) (s : RunSt) :
    ∀ e ∈ s.events, e ∈ (flattenStep pidx s).events := by
  unfold flattenStep
  split
  · intro e he
    exact List.mem_append.2 (Or.inl he)
  · intro e he
    exact he

/-! ### Lemmas: one full page step -/

theorem processPage_stats (eng : RegexEngine) (u cs : Bool) (fill : Color)
    (terms : List String) (reFlags pidx : Nat) (tx : String)
    (stats : List (String × Nat)) (total : Nat) :
    (processPage eng u cs fill terms reFlags pidx tx stats total).stats =
      (pageLoopBody eng u cs fill terms reFlags pidx tx stats total).stats := by
  unfold processPage
  rw [flattenStep_stats]

theorem processPage_total (eng : RegexEngine) (u cs : Bool) (fill : Color)
    (terms : List String) (reFlags pidx : Nat) (tx : String)
    (stats : List (String × Nat)) (total : Nat) :
    (processPage eng u cs fill terms reFlags pidx tx stats total).total =
      (pageLoopBody eng u cs fill terms reFlags pidx tx stats total).total := by
  unfold processPage
  rw [flattenStep_total]

theorem processPage_keys (eng : RegexEngine) (u cs : Bool) (fill : Color)
    (terms : List String) (reFlags pidx : Nat) (tx : String)
    (stats : List (String × Nat)) (total : Nat) :
    (processPage eng u cs fill terms reFlags pidx tx stats
      total).stats.map Prod.fst = stats.map Prod.fst := by
  rw [processPage_stats, pageLoopBody_keys]

theorem processPage_le (eng : RegexEngine) (u cs : Bool) (fill : Color)
    (terms : List String) (reFlags pidx : Nat) (tx : String)
    (stats : List (String × Nat)) (total : Nat) (t' : String) :
    statsLookup stats t' ≤
      statsLookup (processPage eng u cs fill terms reFlags pidx tx stats
        total).stats t' := by
  rw [processPage_stats]
  exact pageLoopBody_le eng u cs fill terms reFlags pidx tx stats total t'

theorem processPage_sum (eng : RegexEngine) (u cs : Bool) (fill : Color)
    (terms : List String) (reFlags pidx : Nat) (tx : String)
    (stats : List (String × Nat)) (total : Nat)
    (hnd : (stats.map Prod.fst).Nodup)
    (hmem : ∀ t ∈ terms, t ∈ stats.map Prod.fst) :
    sumStats (processPage eng u cs fill terms reFlags pidx tx stats
        total).stats + total =
      sumStats stats +
        (processPage eng u cs fill terms reFlags pidx tx stats total).total := by
  rw [processPage_stats, processPage_total]
  exact pageLoopBody_sum eng u cs fill terms reFlags pidx tx stats total
    hnd hmem

theorem processPage_marksTotal (eng : RegexEngine) (u cs : Bool)
    (fill : Color) (terms : List String) (reFlags pidx : Nat) (tx : String)
    (stats : List (String × Nat)) (total : Nat) :
    marksIn (processPage eng u cs fill terms reFlags pidx tx stats
        total).events + total =
      (processPage eng u cs fill terms reFlags pidx tx stats total).total := by
  unfold processPage
  rw [flattenStep_marksIn, flattenStep_total]
  exact pageLoopBody_marksTotal eng u cs fill terms reFlags pidx tx stats total

theorem processPage_events (eng : RegexEngine) (u cs : Bool) (fill : Color)
    (terms : List String) (reFlags pidx : Nat) (tx : String)
    (stats : List (String × Nat)) (total : Nat) :
    ∀ e ∈ (processPage eng u cs fill terms reFlags pidx tx stats
        total).events, pageEvent e = true ∧ evPage e = some pidx := by
  intro e he
  unfold processPage at he
  rcases flattenStep_events pidx _ e he with hmem | rfl
  · obtain ⟨h1, h2⟩ := pageLoopBody_events eng u cs fill terms reFlags pidx
      tx stats total e hmem
    refine ⟨?_, h2⟩
    rcases Bool.or_eq_true_iff.1 h1 with h | h
    · rcases Bool.or_eq_true_iff.1 h with h' | h' <;>
        cases e <;> simp_all [isMarkEv, isSearchEv, pageEvent]
    · cases e <;> simp_all [isGetTextEv, pageEvent]
  · exact ⟨rfl, rfl⟩

theorem processPage_apply_iff (eng : RegexEngine) (u cs : Bool) (fill : Color)
    (terms : List String) (reFlags pidx : Nat) (tx : String)
    (stats : List (String × Nat)) (total : Nat) :
    Event.applyPage pidx ∈ (processPage eng u cs fill terms reFlags pidx tx
        stats total).events ↔
      ∃ r, Event.mark pidx r ∈ (processPage eng u cs fill terms reFlags pidx
        tx stats total).events := by
  unfold processPage
  have hmr := pageLoopBody_marks eng u cs fill terms reFlags pidx tx stats total
  by_cases hp : 0 < (pageLoopBody eng u cs fill terms reFlags pidx tx stats
      total).pageRed
  · constructor
    · intro _
      have hpos : 0 < marksIn (pageLoopBody eng u cs fill terms reFlags pidx
          tx stats total).events := by omega
      obtain ⟨e, he, hm⟩ := mem_of_marksIn_pos _ hpos
      obtain ⟨_, h2⟩ := pageLoopBody_events eng u cs fill terms reFlags pidx
        tx stats total e he
      cases e with
      | mark p r =>
        simp only [evPage, Option.some_inj] at h2
        exact ⟨r, h2 ▸ flattenStep_sub_events pidx _ _ he⟩
      | openDoc => exact absurd hm (by simp [isMarkEv])
      | compile t f => exact absurd hm (by simp [isMarkEv])
      | getText p => exact absurd hm (by simp [isMarkEv])
      | search p m => exact absurd hm (by simp [isMarkEv])
      | applyPage p => exact absurd hm (by simp [isMarkEv])
      | save p => exact absurd hm (by simp [isMarkEv])
      | closeDoc => exact absurd hm (by simp [isMarkEv])
    · intro _
      exact flattenStep_apply_mem pidx _ hp
  · have h0 : (pageLoopBody eng u cs fill terms reFlags pidx tx stats
        total).pageRed = 0 := by omega
    rw [flattenStep_of_zero _ _ h0]
    constructor
    · intro happ
      obtain ⟨h1, _⟩ := pageLoopBody_events eng u cs fill terms reFlags pidx
        tx stats total _ happ
      simp [isMarkEv, isSearchEv, isGetTextEv] at h1
    · intro ⟨r, hr⟩
      have := marksIn_pos_of_mem _ _ hr rfl
      omega

theorem processPage_noop (eng : RegexEngine) (u cs : Bool) (fill : Color)
    (terms : List String) (reFlags pidx : Nat) (tx : String)
    (stats : List (String × Nat)) (total : Nat)
    (h : ∀ t ∈ terms, pageTermRects eng u cs reFlags tx t = []) :
    (processPage eng u cs fill terms reFlags pidx tx stats total).page =
        Page.ofText tx ∧
      (processPage eng u cs fill terms reFlags pidx tx stats total).stats =
        stats ∧
      (processPage eng u cs fill terms reFlags pidx tx stats total).total =
        total ∧
      ∀ e ∈ (processPage eng u cs fill terms reFlags pidx tx stats
        total).events, isMarkEv e = false ∧ isApplyEv e = false := by
  obtain ⟨hpg, hst, hpr, hto⟩ := pageLoopBody_noop eng u cs fill terms
    reFlags pidx tx stats total h
  have hmr := pageLoopBody_marks eng u cs fill terms reFlags pidx tx stats total
  unfold processPage
  rw [flattenStep_of_zero _ _ hpr]
  refine ⟨hpg, hst, hto, ?_⟩
  intro e he
  obtain ⟨h1, _⟩ := pageLoopBody_events eng u cs fill terms reFlags pidx tx
    stats total e he
  constructor
  · rcases hm : isMarkEv e with _ | _
    · rfl
    · have := marksIn_pos_of_mem _ _ he hm
      omega
  · cases e <;> simp_all [isMarkEv, isSearchEv, isGetTextEv, isApplyEv]

theorem processPage_regex_lookup (eng : RegexEngine) (cs : Bool)
    (fill : Color) (terms : List String) (reFlags pidx : Nat) (tx : String)
    (stats : List (String × Nat)) (total : Nat) (t : String)
    (hnd : terms.Nodup) (ht : t ∈ terms) (hkeys : t ∈ stats.map Prod.fst) :
    statsLookup (processPage eng true cs fill terms reFlags pidx tx stats
        total).stats t =
      statsLookup stats t + termPageBoxes eng reFlags tx t := by
  rw [processPage_stats]
  exact pageLoopBody_regex_lookup eng cs fill terms reFlags pidx tx stats
    total t hnd ht hkeys

/-! ### Lemmas: the page loop -/

theorem runPages_keys (eng : RegexEngine) (u cs : Bool) (fill : Color)
    (terms : List String) (reFlags : Nat) (texts : List String) :
    ∀ (pidx : Nat) (stats : List (String × Nat)) (total : Nat),
      (runPages eng u cs fill terms reFlags pidx texts stats
        total).stats.map Prod.fst = stats.map Prod.fst := by
  induction texts with
  | nil => intro pidx stats total; rfl
  | cons tx rest ih =>
    intro pidx stats total
    simp only [runPages]
    rw [ih, processPage_keys]

theorem runPages_le (eng : RegexEngine) (u cs : Bool) (fill : Color)
    (terms : List String) (reFlags : Nat) (texts : List String) :
    ∀ (pidx : Nat) (stats : List (String × Nat)) (total : Nat) (t' : String),
      statsLookup stats t' ≤
        statsLookup (runPages eng u cs fill terms reFlags pidx texts stats
          total).stats t' := by
  induction texts with
  | nil => intro pidx stats total t'; exact Nat.le_refl _
  | cons tx rest ih =>
    intro pidx stats total t'
    simp only [runPages]
    exact Nat.le_trans
      (processPage_le eng u cs fill terms reFlags pidx tx stats total t')
      (ih _ _ _ t')

theorem runPages_sum (eng : RegexEngine) (u cs : Bool) (fill : Color)
    (terms : List String) (reFlags : Nat) (texts : List String) :
    ∀ (pidx : Nat) (stats : List (String × Nat)) (total : Nat),
      (stats.map Prod.fst).Nodup →
      (∀ t ∈ terms, t ∈ stats.map Prod.fst) →
      sumStats (runPages eng u cs fill terms reFlags pidx texts stats
          total).stats + total =
        sumStats stats +
          (runPages eng u cs fill terms reFlags pidx texts stats
            total).total := by
  induction texts with
  | nil => intro pidx stats total _ _; rfl
  | cons tx rest ih =>
    intro pidx stats total hnd hmem
    simp only [runPages]
    have hkeys := processPage_keys eng u cs fill terms reFlags pidx tx
      stats total
    have h1 := processPage_sum eng u cs fill terms reFlags pidx tx stats
      total hnd hmem
    have hnd' : ((processPage eng u cs fill terms reFlags pidx tx stats
        total).stats.map Prod.fst).Nodup := by rw [hkeys]; exact hnd
    have hmem' : ∀ t ∈ terms, t ∈ (processPage eng u cs fill terms reFlags
        pidx tx stats total).stats.map Prod.fst := by
      intro t ht
      rw [hkeys]
      exact hmem t ht
    have h2 := ih (pidx + 1)
      (processPage eng u cs fill terms reFlags pidx tx stats total).stats
      (processPage eng u cs fill terms reFlags pidx tx stats total).total
      hnd' hmem'
    omega

theorem runPages_marks (eng : RegexEngine) (u cs : Bool) (fill : Color)
    (terms : List String) (reFlags : Nat) (texts : List String) :
    ∀ (pidx : Nat) (stats : List (String × Nat)) (total : Nat),
      marksIn (runPages eng u cs fill terms reFlags pidx texts stats
          total).events + total =
        (runPages eng u cs fill terms reFlags pidx texts stats
          total).total := by
  induction texts with
  | nil => intro pidx stats total; simp [runPages, marksIn_nil]
  | cons tx rest ih =>
    intro pidx stats total
    simp only [runPages]
    rw [marksIn_append]
    have h1 := processPage_marksTotal eng u cs fill terms reFlags pidx tx
      stats total
    have h2 := ih (pidx + 1)
      (processPage eng u cs fill terms reFlags pidx tx stats total).stats
      (processPage eng u cs fill terms reFlags pidx tx stats total).total
    omega

theorem runPages_events (eng : RegexEngine) (u cs : Bool) (fill : Color)
    (terms : List String) (reFlags : Nat) (texts : List String) :
    ∀ (pidx : Nat) (stats : List (String × Nat)) (total : Nat),
      ∀ e ∈ (runPages eng u cs fill terms reFlags pidx texts stats
        total).events, pageEvent e = true := by
  induction texts with
  | nil => intro pidx stats total e he; simp [runPages] at he
  | cons tx rest ih =>
    intro pidx stats total e he
    simp only [runPages] at he
    rcases List.mem_append.1 he with h | h
    · exact (processPage_events eng u cs fill terms reFlags pidx tx stats
        total e h).1
    · exact ih (pidx + 1) _ _ e h

theorem runPages_noop (eng : RegexEngine) (u cs : Bool) (fill : Color)
    (terms : List String) (reFlags : Nat) (texts : List String) :
    ∀ (pidx : Nat) (stats : List (String × Nat)) (total : Nat),
      (∀ tx ∈ texts, ∀ t ∈ terms,
        pageTermRects eng u cs reFlags tx t = []) →
      (runPages eng u cs fill terms reFlags pidx texts stats total).pages =
          texts.map Page.ofText ∧
        (runPages eng u cs fill terms reFlags pidx texts stats total).stats =
          stats ∧
        (runPages eng u cs fill terms reFlags pidx texts stats total).total =
          total ∧
        ∀ e ∈ (runPages eng u cs fill terms reFlags pidx texts stats
          total).events, isMarkEv e = false ∧ isApplyEv e = false := by
  induction texts with
  | nil =>
    intro pidx stats total _
    refine ⟨rfl, rfl, rfl, ?_⟩
    intro e he
    simp [runPages] at he
  | cons tx rest ih =>
    intro pidx stats total h
    obtain ⟨hpg, hst, hto, hev⟩ := processPage_noop eng u cs fill terms
      reFlags pidx tx stats total
      (fun t ht => h tx (List.mem_cons_self tx rest) t ht)
    obtain ⟨rpg, rst, rto, rev⟩ := ih (pidx + 1)
      (processPage eng u cs fill terms reFlags pidx tx stats total).stats
      (processPage eng u cs fill terms reFlags pidx tx stats total).total
      (fun tx' htx' t ht => h tx' (List.mem_cons_of_mem tx htx') t ht)
    simp only [runPages]
    refine ⟨?_, ?_, ?_, ?_⟩
    · rw [List.map_cons, rpg, hpg]
    · rw [rst, hst]
    · rw [rto, hto]
    · intro e he
      rcases List.mem_append.1 he with hm | hm
      · exact hev e hm
      · exact rev e hm

theorem runPages_regex_lookup (eng : RegexEngine) (cs : Bool) (fill : Color)
    (terms : List String) (reFlags : Nat) (texts : List String)
    (t : String) (hnd : terms.Nodup) (ht : t ∈ terms) :
    ∀ (pidx : Nat) (stats : List (String × Nat)) (total : Nat),
      t ∈ stats.map Prod.fst →
      statsLookup (runPages eng true cs fill terms reFlags pidx texts stats
          total).stats t =
        statsLookup stats t +
          (texts.map fun tx => termPageBoxes eng reFlags tx t).sum := by
  induction texts with
  | nil => intro pidx stats total _; simp [runPages]
  | cons tx rest ih =>
    intro pidx stats total hkeys
    simp only [runPages]
    have hkeys' : t ∈ (processPage eng true cs fill terms reFlags pidx tx
        stats total).stats.map Prod.fst := by
      rw [processPage_keys]
      exact hkeys
    rw [ih (pidx + 1) _ _ hkeys',
      processPage_regex_lookup eng cs fill terms reFlags pidx tx stats total
        t hnd ht hkeys, List.map_cons, List.sum_cons]
    omega

/-! ### Lemmas: plumbing of one run -/

theorem redact_pdf_open_err (eng : RegexEngine) (ad : Adapter)
    (input : String) (terms : List String) (cs : Bool) (fill : Color)
    (out : Option String) (u : Bool) (e : String)
    (ho : ad.openResult = Except.error e) :
    redact_pdf eng ad input terms cs fill out u = ⟨failResult e, [], []⟩ := by
  unfold redact_pdf
  rw [ho]

theorem redact_pdf_open_ok (eng : RegexEngine) (ad : Adapter)
    (input : String) (terms : List String) (cs : Bool) (fill : Color)
    (out : Option String) (u : Bool) (texts : List String)
    (ho : ad.openResult = Except.ok texts) :
    redact_pdf eng ad input terms cs fill out u =
      afterOpen eng ad input terms cs fill out u texts := by
  unfold redact_pdf
  rw [ho]

theorem afterOpen_regex (eng : RegexEngine) (ad : Adapter) (input : String)
    (terms : List String) (cs : Bool) (fill : Color) (out : Option String)
    (texts : List String) :
    afterOpen eng ad input terms cs fill out true texts =
      afterCompile eng ad input terms cs fill out true texts
        (compileAll eng (if cs then 0 else RE_IGNORECASE) terms) := rfl

theorem afterOpen_literal (eng : RegexEngine) (ad : Adapter) (input : String)
    (terms : List String) (cs : Bool) (fill : Color) (out : Option String)
    (texts : List String) :
    afterOpen eng ad input terms cs fill out false texts =
      afterCompile eng ad input terms cs fill out false texts ([], none) := rfl

theorem afterCompile_err (eng : RegexEngine) (ad : Adapter) (input : String)
    (terms : List String) (cs : Bool) (fill : Color) (out : Option String)
    (u : Bool) (texts : List String)
    (c : List Event × Option (String × String)) (t0 msg : String)
    (hc : c.2 = some (t0, msg)) :
    afterCompile eng ad input terms cs fill out u texts c =
      ⟨failResult ("Invalid regex '" ++ t0 ++ "': " ++ msg),
       texts.map Page.ofText, Event.openDoc :: c.1⟩ := by
  unfold afterCompile
  rw [hc]

theorem afterCompile_ok (eng : RegexEngine) (ad : Adapter) (input : String)
    (terms : List String) (cs : Bool) (fill : Color) (out : Option String)
    (u : Bool) (texts : List String)
    (c : List Event × Option (String × String)) (hc : c.2 = none) :
    afterCompile eng ad input terms cs fill out u texts c =
      finishRun ad c.1 (out.getD (defaultOutputPath input))
        (runPages eng u cs fill terms (if cs then 0 else RE_IGNORECASE)
          0 texts (initStats terms) 0) := by
  unfold afterCompile
  rw [hc]

theorem finishRun_save_err (ad : Adapter) (cevs : List Event) (out : String)
    (r : LoopOut) (e : String) (hs : ad.saveErr = some e) :
    finishRun ad cevs out r =
      ⟨failResult e, r.pages, Event.openDoc :: (cevs ++ r.events)⟩ := by
  unfold finishRun
  rw [hs]

theorem finishRun_ok (ad : Adapter) (cevs : List Event) (out : String)
    (r : LoopOut) (hs : ad.saveErr = none) :
    finishRun ad cevs out r =
      ⟨⟨true, r.total, r.stats, some out, none⟩, r.pages,
       Event.openDoc ::
         (cevs ++ r.events ++ [Event.save out, Event.closeDoc])⟩ := by
  unfold finishRun
  rw [hs]

/-! ### Lemmas: event shapes in a full trace -/

theorem isCompileEv_shape (e : Event) (h : isCompileEv e = true) :
    ∃ t f, e = Event.compile t f := by
  cases e <;>
    first
      | exact ⟨_, _, rfl⟩
      | exact absurd h (by simp [isCompileEv])

theorem compileAll_none_forall (eng : RegexEngine) (rf : Nat)
    (ts : List String) (h : (compileAll eng rf ts).2 = none) :
    ∀ t ∈ ts, eng.compileErr t rf = none := by
  induction ts with
  | nil => simp
  | cons t ts ih =>
    intro t' ht'
    rcases hc : eng.compileErr t rf with _ | e
    · rcases List.mem_cons.1 ht' with rfl | hmem
      · exact hc
      · rw [compileAll, hc] at h
        exact ih (by simpa using h) t' hmem
    · rw [compileAll, hc] at h
      simp at h

theorem filter_compile_map_compile (terms : List String) (rf : Nat) :
    (terms.map fun t => Event.compile t rf).filter isCompileEv =
      terms.map fun t => Event.compile t rf := by
  rw [List.filter_eq_self]
  intro e he
  obtain ⟨t, _, rfl⟩ := List.mem_map.1 he
  rfl

theorem filter_compile_pageEvents (evs : List Event)
    (h : ∀ e ∈ evs, pageEvent e = true) :
    evs.filter isCompileEv = [] := by
  rw [List.filter_eq_nil_iff]
  intro e he
  have hp := h e he
  cases e <;> simp_all [pageEvent, isCompileEv]

theorem marksIn_compile_events (evs : List Event)
    (h : ∀ e ∈ evs, isCompileEv e = true) : marksIn evs = 0 := by
  apply marksIn_eq_zero_of_no_mark
  intro e he
  obtain ⟨t, f, rfl⟩ := isCompileEv_shape e (h e he)
  rfl

theorem map_text_ofText (texts : List String) :
    (texts.map Page.ofText).map Page.text = texts := by
  induction texts with
  | nil => rfl
  | cons tx rest ih => simp only [List.map_cons, ih]; rfl

theorem marksIn_cons_not (e : Event) (l : List Event)
    (h : isMarkEv e = false) : marksIn (e :: l) = marksIn l := by
  simp [marksIn, List.filter_cons, h]

theorem filter_compile_full_trace (cevs revs : List Event) (o : String)
    (hrev : ∀ e ∈ revs, pageEvent e = true) :
    (Event.openDoc :: (cevs ++ revs ++ [Event.save o,
      Event.closeDoc])).filter isCompileEv = cevs.filter isCompileEv := by
  rw [List.filter_cons]
  have h1 : isCompileEv Event.openDoc = false := rfl
  rw [h1, if_neg (by simp), List.filter_append, List.filter_append,
    filter_compile_pageEvents revs hrev]
  have h2 : ([Event.save o, Event.closeDoc]).filter isCompileEv = [] := rfl
  rw [h2, List.append_nil, List.append_nil]

theorem marksIn_full_trace (cevs revs : List Event) (o : String)
    (hc : ∀ e ∈ cevs, isCompileEv e = true) :
    marksIn (Event.openDoc :: (cevs ++ revs ++ [Event.save o,
      Event.closeDoc])) = marksIn revs := by
  rw [marksIn_cons_not Event.openDoc _ rfl, marksIn_append, marksIn_append,
    marksIn_compile_events cevs hc]
  have h2 : marksIn [Event.save o, Event.closeDoc] = 0 := rfl
  rw [h2]
  omega

/-! ## The claims -/

/-- C1 (code bug): in literal mode the `case_sensitive` flag does not make
the search case-sensitive — the code only toggles
`TEXT_PRESERVE_LIGATURES` (lines 277-279) and PyMuPDF's `search_for` is
case-insensitive regardless of flags.  With `case_sensitive = true`, term
`"Secret"` and a page containing only the lower-case `"secret"` (zero
exact-case occurrences), the code still records 1 redaction for the term;
and the case-insensitive half of the claim (count 3 on a page with
`"SECRET"`, `"secret"`, `"Secret"`) does hold. -/
theorem C1_literal_case_sensitive_ignored :
    (exactOccs "my secret plan" "Secret").length = 0 ∧
    (redact_pdf noRegex (adapterOf ["my secret plan"]) "in.pdf" ["Secret"]
      true (0, 0, 0) none false).result.success = true ∧
    statsLookup (redact_pdf noRegex (adapterOf ["my secret plan"]) "in.pdf"
      ["Secret"] true (0, 0, 0) none false).result.stats "Secret" = 1 ∧
    statsLookup (redact_pdf noRegex (adapterOf ["SECRET secret Secret"])
      "in.pdf" ["Secret"] false (0, 0, 0) none false).result.stats
      "Secret" = 3 := by
  refine ⟨by decide, rfl, by decide, by decide⟩

/-- C2: in regex mode, a term that fails to compile aborts the whole
request during validation: the result is a failure naming the first
offending term and the compiler diagnostic, no page is read, marked or
flattened, no save happens, nothing is counted, and the document's pages
are untouched. -/
theorem C2_invalid_regex_fails_before_pages (eng : RegexEngine)
    (ad : Adapter) (input : String) (terms : List String) (cs : Bool)
    (fill : Color) (out : Option String) (texts : List String)
    (t0 msg : String) (ho : ad.openResult = Except.ok texts)
    (hfind : terms.find? (fun t =>
      (eng.compileErr t (if cs then 0 else RE_IGNORECASE)).isSome) = some t0)
    (herr : eng.compileErr t0 (if cs then 0 else RE_IGNORECASE) = some msg) :
    (redact_pdf eng ad input terms cs fill out true).result.success = false ∧
    (redact_pdf eng ad input terms cs fill out true).result.error =
      some ("Invalid regex '" ++ t0 ++ "': " ++ msg) ∧
    (redact_pdf eng ad input terms cs fill out true).result.total_redactions
      = 0 ∧
    (redact_pdf eng ad input terms cs fill out true).pages =
      texts.map Page.ofText ∧
    ∀ e ∈ (redact_pdf eng ad input terms cs fill out true).trace,
      touchesDoc e = false := by
  have hc := compileAll_err eng (if cs then 0 else RE_IGNORECASE) terms t0
    msg hfind herr
  rw [redact_pdf_open_ok _ _ _ _ _ _ _ _ _ ho, afterOpen_regex,
    afterCompile_err _ _ _ _ _ _ _ _ _ _ _ _ hc]
  refine ⟨rfl, rfl, rfl, rfl, ?_⟩
  intro e he
  rcases List.mem_cons.1 he with rfl | hmem
  · rfl
  · obtain ⟨t, f, rfl⟩ := isCompileEv_shape e
      (compileAll_events eng _ terms e hmem)
    rfl

/-- C2 witness: the toy engine rejects the pattern `"("`; a request with
terms `["ok", "("]` fails with the expected message. -/
theorem C2_invalid_regex_witness :
    (redact_pdf toyEngine (adapterOf ["hello world"]) "in.pdf" ["ok", "("]
      true (0, 0, 0) none true).result.success = false ∧
    (redact_pdf toyEngine (adapterOf ["hello world"]) "in.pdf" ["ok", "("]
      true (0, 0, 0) none true).result.error =
      some "Invalid regex '(': missing ), unterminated subpattern at position 0" := by
  have h := C2_invalid_regex_fails_before_pages toyEngine
    (adapterOf ["hello world"]) "in.pdf" ["ok", "("] true (0, 0, 0) none
    ["hello world"] "(" "missing ), unterminated subpattern at position 0"
    rfl (by decide) (by decide)
  exact ⟨h.1, h.2.1⟩

/-- C8 counterexample: on the regex-validation failure path the document
handle is opened but never closed before the function returns, refuting
"released on every exit path". -/
theorem C8_no_close_on_validation_failure :
    Event.openDoc ∈ (redact_pdf toyEngine (adapterOf ["hello"]) "in.pdf"
      ["("] true (0, 0, 0) none true).trace ∧
    (redact_pdf toyEngine (adapterOf ["hello"]) "in.pdf" ["("] true
      (0, 0, 0) none true).result.success = false ∧
    Event.closeDoc ∉ (redact_pdf toyEngine (adapterOf ["hello"]) "in.pdf"
      ["("] true (0, 0, 0) none true).trace := by
  decide

/-- C3: in regex mode (with all terms valid and a successful run), every
term is compiled exactly once per request — the trace's compile events are
exactly one per term, with `re.IGNORECASE` exactly when `case_sensitive`
is false — independently of the number of pages; each term's final count
is the sum, over the pages, of the number of boxes the adapter returns
across that term's matches on the page (each matched substring is handed
to the box search and every returned box is counted); and every counted
instance corresponds to one mark event. -/
theorem C3_regex_compile_once_and_count_boxes (eng : RegexEngine)
    (ad : Adapter) (input : String) (terms : List String) (cs : Bool)
    (fill : Color) (out : Option String) (texts : List String)
    (ho : ad.openResult = Except.ok texts)
    (hok : ∀ t ∈ terms,
      eng.compileErr t (if cs then 0 else RE_IGNORECASE) = none)
    (hnd : terms.Nodup) (hs : ad.saveErr = none) :
    ((redact_pdf eng ad input terms cs fill out true).trace.filter
        isCompileEv =
      terms.map fun t =>
        Event.compile t (if cs then 0 else RE_IGNORECASE)) ∧
    (∀ t ∈ terms,
      statsLookup
          (redact_pdf eng ad input terms cs fill out true).result.stats t =
        (texts.map fun tx =>
          termPageBoxes eng (if cs then 0 else RE_IGNORECASE) tx t).sum) ∧
    marksIn (redact_pdf eng ad input terms cs fill out true).trace =
      (redact_pdf eng ad input terms cs fill out
        true).result.total_redactions := by
  have hca := compileAll_ok eng (if cs then 0 else RE_IGNORECASE) terms hok
  rw [redact_pdf_open_ok _ _ _ _ _ _ _ _ _ ho, afterOpen_regex, hca,
    afterCompile_ok _ _ _ _ _ _ _ _ _ _ rfl, finishRun_ok _ _ _ _ hs]
  refine ⟨?_, ?_, ?_⟩
  · exact (filter_compile_full_trace _ _ _
      (runPages_events eng true cs fill terms _ texts 0 _ 0)).trans
      (filter_compile_map_compile terms _)
  · intro t ht
    have hkeys : t ∈ (initStats terms).map Prod.fst := by
      rw [initStats_keys]
      exact (mem_dictKeys terms t).2 ht
    have h := runPages_regex_lookup eng cs fill terms
      (if cs then 0 else RE_IGNORECASE) texts t hnd ht 0
      (initStats terms) 0 hkeys
    rw [statsLookup_initStats] at h
    simpa using h
  · rw [marksIn_full_trace _ _ _
      (fun e he => by
        obtain ⟨t, _, rfl⟩ := List.mem_map.1 he
        rfl)]
    have h := runPages_marks eng true cs fill terms
      (if cs then 0 else RE_IGNORECASE) texts 0 (initStats terms) 0
    show marksIn (runPages eng true cs fill terms
      (if cs then 0 else RE_IGNORECASE) 0 texts
        (initStats terms) 0).events =
      (runPages eng true cs fill terms (if cs then 0 else RE_IGNORECASE) 0
        texts (initStats terms) 0).total
    omega

/-- C3 witness: with the toy engine (patterns matched literally), terms
`["alice", "bob"]` on pages `"alice and alice"` and `"bob"`: one compile
event per term and the box-sum counts (4 for `"alice"`: two matches, each
re-searched to two boxes; 1 for `"bob"`). -/
theorem C3_regex_witness :
    ((redact_pdf toyEngine (adapterOf ["alice and alice", "bob"]) "in.pdf"
      ["alice", "bob"] true (0, 0, 0) none true).trace.filter isCompileEv =
      [Event.compile "alice" 0, Event.compile "bob" 0]) ∧
    statsLookup (redact_pdf toyEngine (adapterOf ["alice and alice", "bob"])
      "in.pdf" ["alice", "bob"] true (0, 0, 0) none
      true).result.stats "alice" = 4 ∧
    statsLookup (redact_pdf toyEngine (adapterOf ["alice and alice", "bob"])
      "in.pdf" ["alice", "bob"] true (0, 0, 0) none
      true).result.stats "bob" = 1 := by
  have h := C3_regex_compile_once_and_count_boxes toyEngine
    (adapterOf ["alice and alice", "bob"]) "in.pdf" ["alice", "bob"] true
    (0, 0, 0) none ["alice and alice", "bob"] rfl (by decide) (by decide)
    rfl
  refine ⟨h.1, ?_, ?_⟩
  · rw [h.2.1 "alice" (by decide)]
    decide
  · rw [h.2.1 "bob" (by decide)]
    decide

/-- C4: a page is flattened (its `applyPage` event emitted) exactly when at
least one mark was accumulated on it; and a request whose terms produce no
boxes anywhere ends with `total_redactions = 0`, every per-term count 0,
no page flattened anywhere in the trace, and the output pages' extracted
text identical to the input's. -/
theorem C4_flatten_iff_marks_and_noop (eng : RegexEngine) (ad : Adapter)
    (input : String) (terms : List String) (cs : Bool) (fill : Color)
    (out : Option String) (u : Bool) (texts : List String)
    (ho : ad.openResult = Except.ok texts) (hs : ad.saveErr = none)
    (hok : u = true → ∀ t ∈ terms,
      eng.compileErr t (if cs then 0 else RE_IGNORECASE) = none) :
    (∀ (pidx : Nat) (tx : String) (stats : List (String × Nat))
      (total : Nat),
      Event.applyPage pidx ∈ (processPage eng u cs fill terms
        (if cs then 0 else RE_IGNORECASE) pidx tx stats total).events ↔
      ∃ r, Event.mark pidx r ∈ (processPage eng u cs fill terms
        (if cs then 0 else RE_IGNORECASE) pidx tx stats total).events) ∧
    ((∀ tx ∈ texts, ∀ t ∈ terms, pageTermRects eng u cs
        (if cs then 0 else RE_IGNORECASE) tx t = []) →
      (redact_pdf eng ad input terms cs fill out u).result.total_redactions
          = 0 ∧
      (∀ t, statsLookup
        (redact_pdf eng ad input terms cs fill out u).result.stats t = 0) ∧
      (∀ p, Event.applyPage p ∉
        (redact_pdf eng ad input terms cs fill out u).trace) ∧
      (redact_pdf eng ad input terms cs fill out u).pages.map Page.text =
        texts) := by
  constructor
  · intro pidx tx stats total
    exact processPage_apply_iff eng u cs fill terms _ pidx tx stats total
  · intro hmatch
    have hcop2 : (if u then compileAll eng
        (if cs then 0 else RE_IGNORECASE) terms else ([], none)).2 = none := by
      cases u
      · rfl
      · rw [if_pos rfl, compileAll_ok eng _ terms (hok rfl)]
    have hcop1 : ∀ e ∈ (if u then compileAll eng
        (if cs then 0 else RE_IGNORECASE) terms else
          (([], none) : List Event × Option (String × String))).1,
        isCompileEv e = true := by
      cases u
      · intro e he; simp at he
      · intro e he
        rw [if_pos rfl] at he
        exact compileAll_events eng _ terms e he
    rw [redact_pdf_open_ok _ _ _ _ _ _ _ _ _ ho]
    unfold afterOpen
    rw [afterCompile_ok _ _ _ _ _ _ _ _ _ _ hcop2, finishRun_ok _ _ _ _ hs]
    obtain ⟨hpg, hst, hto, hev⟩ := runPages_noop eng u cs fill terms
      (if cs then 0 else RE_IGNORECASE) texts 0 (initStats terms) 0 hmatch
    refine ⟨?_, ?_, ?_, ?_⟩
    · show (runPages eng u cs fill terms (if cs then 0 else RE_IGNORECASE)
        0 texts (initStats terms) 0).total = 0
      rw [hto]
    · intro t
      show statsLookup (runPages eng u cs fill terms
        (if cs then 0 else RE_IGNORECASE) 0 texts
          (initStats terms) 0).stats t = 0
      rw [hst, statsLookup_initStats]
    · intro p hmem
      rcases List.mem_cons.1 hmem with heq | hmem
      · exact absurd heq (by simp)
      · rcases List.mem_append.1 hmem with hmem | hmem
        · rcases List.mem_append.1 hmem with hmem | hmem
          · have := hcop1 _ hmem
            simp [isCompileEv] at this
          · have := (hev _ hmem).2
            simp [isApplyEv] at this
        · simp at hmem
    · show (runPages eng u cs fill terms (if cs then 0 else RE_IGNORECASE)
        0 texts (initStats terms) 0).pages.map Page.text = texts
      rw [hpg, map_text_ofText]

/-- C4 witness: literal request for `"zebra"` against a one-page document
`"hello"`: nothing is counted, page 0 is not flattened, and the output
text equals the input text. -/
theorem C4_noop_witness :
    (redact_pdf noRegex (adapterOf ["hello"]) "in.pdf" ["zebra"] true
      (0, 0, 0) none false).result.total_redactions = 0 ∧
    statsLookup (redact_pdf noRegex (adapterOf ["hello"]) "in.pdf" ["zebra"]
      true (0, 0, 0) none false).result.stats "zebra" = 0 ∧
    Event.applyPage 0 ∉ (redact_pdf noRegex (adapterOf ["hello"]) "in.pdf"
      ["zebra"] true (0, 0, 0) none false).trace ∧
    (redact_pdf noRegex (adapterOf ["hello"]) "in.pdf" ["zebra"] true
      (0, 0, 0) none false).pages.map Page.text = ["hello"] := by
  have h := (C4_flatten_iff_marks_and_noop noRegex (adapterOf ["hello"])
    "in.pdf" ["zebra"] true (0, 0, 0) none false ["hello"] rfl rfl
    (fun hu => absurd hu (by decide))).2 (by decide)
  exact ⟨h.1, h.2.1 "zebra", h.2.2.1 0, h.2.2.2⟩

/-- C5: the stats dictionary is created before page processing with every
request term a key mapped to 0; each page step preserves the key list
exactly and only ever increases each per-term count; and a successful run
returns a stats dictionary whose keys are still exactly the request's
terms (in first-occurrence order) with counts at least their initial 0. -/
theorem C5_stats_keys_initialized_and_monotone (terms : List String) :
    ((initStats terms).map Prod.fst = dictKeys terms) ∧
    (∀ t ∈ terms, t ∈ (initStats terms).map Prod.fst ∧
      statsLookup (initStats terms) t = 0) ∧
    (∀ (eng : RegexEngine) (u cs : Bool) (fill : Color)
      (reFlags pidx : Nat) (tx : String) (stats : List (String × Nat))
      (total : Nat),
      (processPage eng u cs fill terms reFlags pidx tx stats
        total).stats.map Prod.fst = stats.map Prod.fst ∧
      ∀ t', statsLookup stats t' ≤
        statsLookup (processPage eng u cs fill terms reFlags pidx tx stats
          total).stats t') ∧
    (∀ (eng : RegexEngine) (ad : Adapter) (input : String) (cs : Bool)
      (fill : Color) (out : Option String) (u : Bool) (texts : List String),
      ad.openResult = Except.ok texts →
      (u = true → ∀ t ∈ terms,
        eng.compileErr t (if cs then 0 else RE_IGNORECASE) = none) →
      ad.saveErr = none →
      (redact_pdf eng ad input terms cs fill out u).result.stats.map
          Prod.fst = dictKeys terms ∧
      ∀ t', statsLookup (initStats terms) t' ≤
        statsLookup
          (redact_pdf eng ad input terms cs fill out u).result.stats t') := by
  refine ⟨initStats_keys terms, ?_, ?_, ?_⟩
  · intro t ht
    refine ⟨?_, statsLookup_initStats terms t⟩
    rw [initStats_keys]
    exact (mem_dictKeys terms t).2 ht
  · intro eng u cs fill reFlags pidx tx stats total
    exact ⟨processPage_keys eng u cs fill terms reFlags pidx tx stats total,
      fun t' => processPage_le eng u cs fill terms reFlags pidx tx stats
        total t'⟩
  · intro eng ad input cs fill out u texts ho hok hs
    have hcop2 : (if u then compileAll eng
        (if cs then 0 else RE_IGNORECASE) terms else ([], none)).2 = none := by
      cases u
      · rfl
      · rw [if_pos rfl, compileAll_ok eng _ terms (hok rfl)]
    rw [redact_pdf_open_ok _ _ _ _ _ _ _ _ _ ho]
    unfold afterOpen
    rw [afterCompile_ok _ _ _ _ _ _ _ _ _ _ hcop2, finishRun_ok _ _ _ _ hs]
    constructor
    · show (runPages eng u cs fill terms (if cs then 0 else RE_IGNORECASE)
        0 texts (initStats terms) 0).stats.map Prod.fst = dictKeys terms
      rw [runPages_keys, initStats_keys]
    · intro t'
      show statsLookup (initStats terms) t' ≤
        statsLookup (runPages eng u cs fill terms
          (if cs then 0 else RE_IGNORECASE) 0 texts
            (initStats terms) 0).stats t'
      exact runPages_le eng u cs fill terms _ texts 0 (initStats terms) 0 t'

/-- C5 witness: request terms `["hello", "x"]` on page `"hello"`: the
returned stats keys are exactly the two terms and the count of the
unmatched term `"x"` is still at least its initial 0. -/
theorem C5_stats_witness :
    (redact_pdf noRegex (adapterOf ["hello"]) "in.pdf" ["hello", "x"] true
      (0, 0, 0) none false).result.stats.map Prod.fst =
      dictKeys ["hello", "x"] ∧
    statsLookup (initStats ["hello", "x"]) "x" ≤
      statsLookup (redact_pdf noRegex (adapterOf ["hello"]) "in.pdf"
        ["hello", "x"] true (0, 0, 0) none false).result.stats "x" := by
  have h := (C5_stats_keys_initialized_and_monotone ["hello", "x"]).2.2.2
    noRegex (adapterOf ["hello"]) "in.pdf" true (0, 0, 0) none false
    ["hello"] rfl (fun hu => absurd hu (by decide)) rfl
  exact ⟨h.1, h.2 "x"⟩

/-- C6: when no output path is supplied, the resolved output path is the
input's stem with "_redacted.pdf" appended, in the input's directory: the
success result carries it and the document is saved there; in particular
`/docs/report.pdf` resolves to `/docs/report_redacted.pdf`. -/
theorem C6_default_output_path (eng : RegexEngine) (ad : Adapter)
    (input : String) (terms : List String) (cs : Bool) (fill : Color)
    (u : Bool) (texts : List String)
    (ho : ad.openResult = Except.ok texts)
    (hok : u = true → ∀ t ∈ terms,
      eng.compileErr t (if cs then 0 else RE_IGNORECASE) = none)
    (hs : ad.saveErr = none) :
    (redact_pdf eng ad input terms cs fill none u).result.output_path =
      some (defaultOutputPath input) ∧
    Event.save (defaultOutputPath input) ∈
      (redact_pdf eng ad input terms cs fill none u).trace ∧
    defaultOutputPath "/docs/report.pdf" = "/docs/report_redacted.pdf" := by
  have hcop2 : (if u then compileAll eng
      (if cs then 0 else RE_IGNORECASE) terms else ([], none)).2 = none := by
    cases u
    · rfl
    · rw [if_pos rfl, compileAll_ok eng _ terms (hok rfl)]
  rw [redact_pdf_open_ok _ _ _ _ _ _ _ _ _ ho]
  unfold afterOpen
  rw [afterCompile_ok _ _ _ _ _ _ _ _ _ _ hcop2, finishRun_ok _ _ _ _ hs]
  refine ⟨rfl, ?_, by decide⟩
  simp

/-- C6 witness: input `/docs/report.pdf` and no output path resolve to
`/docs/report_redacted.pdf` in the returned result. -/
theorem C6_default_output_witness :
    (redact_pdf noRegex (adapterOf ["x"]) "/docs/report.pdf" ["a"] true
      (0, 0, 0) none false).result.output_path =
      some "/docs/report_redacted.pdf" := by
  have h := C6_default_output_path noRegex (adapterOf ["x"])
    "/docs/report.pdf" ["a"] true (0, 0, 0) false ["x"] rfl
    (fun hu => absurd hu (by decide)) rfl
  rw [h.1, h.2.2]

/-- C7: the run succeeds exactly when the document opens, every pattern
compiles (in regex mode) and the save succeeds; every failure carries an
error description; a success carries the resolved output path and its
trace contains the save of that path; and no failing run ever saved. -/
theorem C7_all_or_nothing (eng : RegexEngine) (ad : Adapter) (input : String)
    (terms : List String) (cs : Bool) (fill : Color) (out : Option String)
    (u : Bool) :
    ((redact_pdf eng ad input terms cs fill out u).result.success = true ↔
      (∃ texts, ad.openResult = Except.ok texts) ∧
      (u = true → ∀ t ∈ terms,
        eng.compileErr t (if cs then 0 else RE_IGNORECASE) = none) ∧
      ad.saveErr = none) ∧
    ((redact_pdf eng ad input terms cs fill out u).result.success = false →
      ∃ e, (redact_pdf eng ad input terms cs fill out u).result.error =
        some e) ∧
    ((redact_pdf eng ad input terms cs fill out u).result.success = true →
      (redact_pdf eng ad input terms cs fill out u).result.error = none ∧
      (redact_pdf eng ad input terms cs fill out u).result.output_path =
        some (out.getD (defaultOutputPath input)) ∧
      Event.save (out.getD (defaultOutputPath input)) ∈
        (redact_pdf eng ad input terms cs fill out u).trace) ∧
    ((redact_pdf eng ad input terms cs fill out u).result.success = false →
      ∀ p, Event.save p ∉
        (redact_pdf eng ad input terms cs fill out u).trace) := by
  have hiff : ((if u then compileAll eng
      (if cs then 0 else RE_IGNORECASE) terms else ([], none)).2 = none) ↔
      (u = true → ∀ t ∈ terms,
        eng.compileErr t (if cs then 0 else RE_IGNORECASE) = none) := by
    cases u
    · simp
    · rw [if_pos rfl]
      constructor
      · intro h _
        exact compileAll_none_forall eng _ terms h
      · intro h
        rw [compileAll_ok eng _ terms (h rfl)]
  have hcevs : ∀ e ∈ (if u then compileAll eng
      (if cs then 0 else RE_IGNORECASE) terms else
        (([], none) : List Event × Option (String × String))).1,
      isCompileEv e = true := by
    cases u
    · intro e he; simp at he
    · intro e he
      rw [if_pos rfl] at he
      exact compileAll_events eng _ terms e he
  rcases ho : ad.openResult with e | texts
  · rw [redact_pdf_open_err _ _ _ _ _ _ _ _ _ ho]
    refine ⟨?_, ?_, ?_, ?_⟩
    · constructor
      · intro hsucc
        exact absurd hsucc (by simp [failResult])
      · rintro ⟨⟨texts, htex⟩, -, -⟩
        simp at htex
    · intro _
      exact ⟨e, rfl⟩
    · intro hsucc
      exact absurd hsucc (by simp [failResult])
    · intro _ p hmem
      simp at hmem
  · rcases hc2 : (if u then compileAll eng
        (if cs then 0 else RE_IGNORECASE) terms else
          (([], none) : List Event × Option (String × String))).2
      with _ | te
    · rcases hsv : ad.saveErr with _ | e
      · rw [redact_pdf_open_ok _ _ _ _ _ _ _ _ _ ho]
        unfold afterOpen
        rw [afterCompile_ok _ _ _ _ _ _ _ _ _ _ hc2,
          finishRun_ok _ _ _ _ hsv]
        refine ⟨?_, ?_, ?_, ?_⟩
        · constructor
          · intro _
            exact ⟨⟨texts, rfl⟩, hiff.1 hc2, rfl⟩
          · intro _
            rfl
        · intro hf
          exact absurd hf (by simp)
        · intro _
          exact ⟨rfl, rfl, by simp⟩
        · intro hf
          exact absurd hf (by simp)
      · rw [redact_pdf_open_ok _ _ _ _ _ _ _ _ _ ho]
        unfold afterOpen
        rw [afterCompile_ok _ _ _ _ _ _ _ _ _ _ hc2,
          finishRun_save_err _ _ _ _ _ hsv]
        refine ⟨?_, ?_, ?_, ?_⟩
        · constructor
          · intro hsucc
            exact absurd hsucc (by simp [failResult])
          · rintro ⟨-, -, hnone⟩
            simp at hnone
        · intro _
          exact ⟨e, rfl⟩
        · intro hsucc
          exact absurd hsucc (by simp [failResult])
        · intro _ p hmem
          rcases List.mem_cons.1 hmem with heq | hmem
          · simp at heq
          · rcases List.mem_append.1 hmem with hmem | hmem
            · have := hcevs _ hmem
              simp [isCompileEv] at this
            · have := runPages_events eng u cs fill terms
                (if cs then 0 else RE_IGNORECASE) texts 0
                (initStats terms) 0 _ hmem
              simp [pageEvent] at this
    · rw [redact_pdf_open_ok _ _ _ _ _ _ _ _ _ ho]
      unfold afterOpen
      rw [afterCompile_err _ _ _ _ _ _ _ _ _ _ te.1 te.2 (by rw [hc2])]
      refine ⟨?_, ?_, ?_, ?_⟩
      · constructor
        · intro hsucc
          exact absurd hsucc (by simp [failResult])
        · rintro ⟨-, hval, -⟩
          have := hiff.2 hval
          rw [hc2] at this
          simp at this
      · intro _
        exact ⟨_, rfl⟩
      · intro hsucc
        exact absurd hsucc (by simp [failResult])
      · intro _ p hmem
        rcases List.mem_cons.1 hmem with heq | hmem
        · simp at heq
        · have := hcevs _ hmem
          simp [isCompileEv] at this

/-- C7 witness: a request whose open, validation and save all succeed
returns success. -/
theorem C7_success_witness :
    (redact_pdf noRegex (adapterOf ["x"]) "in.pdf" ["a"] true (0, 0, 0)
      none false).result.success = true :=
  (C7_all_or_nothing noRegex (adapterOf ["x"]) "in.pdf" ["a"] true
    (0, 0, 0) none false).1.mpr
    ⟨⟨["x"], rfl⟩, fun hu => absurd hu (by decide), rfl⟩

/-- C8 (amended): at most one document handle is opened per invocation,
but it is released only on the success path: the trace contains closeDoc
exactly when the run succeeded — on regex-validation failure and on
runtime (open or save) errors the function returns without closing the
handle. -/
theorem C8_close_only_on_success (eng : RegexEngine) (ad : Adapter)
    (input : String) (terms : List String) (cs : Bool) (fill : Color)
    (out : Option String) (u : Bool) :
    (Event.closeDoc ∈ (redact_pdf eng ad input terms cs fill out u).trace ↔
      (redact_pdf eng ad input terms cs fill out u).result.success = true) ∧
    (redact_pdf eng ad input terms cs fill out u).trace.count
      Event.openDoc ≤ 1 := by
  have hcevs : ∀ e ∈ (if u then compileAll eng
      (if cs then 0 else RE_IGNORECASE) terms else
        (([], none) : List Event × Option (String × String))).1,
      isCompileEv e = true := by
    cases u
    · intro e he; simp at he
    · intro e he
      rw [if_pos rfl] at he
      exact compileAll_events eng _ terms e he
  rcases ho : ad.openResult with e | texts
  · rw [redact_pdf_open_err _ _ _ _ _ _ _ _ _ ho]
    constructor
    · constructor
      · intro hmem
        simp at hmem
      · intro hsucc
        exact absurd hsucc (by simp [failResult])
    · simp
  · rcases hc2 : (if u then compileAll eng
        (if cs then 0 else RE_IGNORECASE) terms else
          (([], none) : List Event × Option (String × String))).2
      with _ | te
    · rcases hsv : ad.saveErr with _ | e
      · rw [redact_pdf_open_ok _ _ _ _ _ _ _ _ _ ho]
        unfold afterOpen
        rw [afterCompile_ok _ _ _ _ _ _ _ _ _ _ hc2,
          finishRun_ok _ _ _ _ hsv]
        constructor
        · constructor
          · intro _
            rfl
          · intro _
            simp
        · rw [List.count_cons_self, List.count_eq_zero.2 ?_]
          · intro hmem
            rcases List.mem_append.1 hmem with hmem | hmem
            · rcases List.mem_append.1 hmem with hmem | hmem
              · have := hcevs _ hmem
                simp [isCompileEv] at this
              · have := runPages_events eng u cs fill terms
                  (if cs then 0 else RE_IGNORECASE) texts 0
                  (initStats terms) 0 _ hmem
                simp [pageEvent] at this
            · simp at hmem
      · rw [redact_pdf_open_ok _ _ _ _ _ _ _ _ _ ho]
        unfold afterOpen
        rw [afterCompile_ok _ _ _ _ _ _ _ _ _ _ hc2,
          finishRun_save_err _ _ _ _ _ hsv]
        constructor
        · constructor
          · intro hmem
            rcases List.mem_cons.1 hmem with heq | hmem
            · simp at heq
            · rcases List.mem_append.1 hmem with hmem | hmem
              · have := hcevs _ hmem
                simp [isCompileEv] at this
              · have := runPages_events eng u cs fill terms
                  (if cs then 0 else RE_IGNORECASE) texts 0
                  (initStats terms) 0 _ hmem
                simp [pageEvent] at this
          · intro hsucc
            exact absurd hsucc (by simp [failResult])
        · rw [List.count_cons_self, List.count_eq_zero.2 ?_]
          · intro hmem
            rcases List.mem_append.1 hmem with hmem | hmem
            · have := hcevs _ hmem
              simp [isCompileEv] at this
            · have := runPages_events eng u cs fill terms
                (if cs then 0 else RE_IGNORECASE) texts 0
                (initStats terms) 0 _ hmem
              simp [pageEvent] at this
    · rw [redact_pdf_open_ok _ _ _ _ _ _ _ _ _ ho]
      unfold afterOpen
      rw [afterCompile_err _ _ _ _ _ _ _ _ _ _ te.1 te.2 (by rw [hc2])]
      constructor
      · constructor
        · intro hmem
          rcases List.mem_cons.1 hmem with heq | hmem
          · simp at heq
          · have := hcevs _ hmem
            simp [isCompileEv] at this
        · intro hsucc
          exact absurd hsucc (by simp [failResult])
      · rw [List.count_cons_self, List.count_eq_zero.2 ?_]
        · intro hmem
          have := hcevs _ hmem
          simp [isCompileEv] at this

/-- C9: `parse_color` maps "black" to (0,0,0), "white" to (1,1,1) and a
comma-separated decimal triple to the corresponding tuple; a malformed
value yields black together with the warning, and whenever the warning is
emitted the returned color is black (never a hard failure). -/
theorem C9_parse_color_spec :
    parse_color "black" = ((0, 0, 0), false) ∧
    parse_color "white" = ((1, 1, 1), false) ∧
    parse_color "0.5,0.5,0.5" = ((1/2, 1/2, 1/2), false) ∧
    parse_color "not-a-color" = ((0, 0, 0), true) ∧
    ∀ s, (parse_color s).2 = true → (parse_color s).1 = (0, 0, 0) := by
  refine ⟨rfl, rfl, ?_, rfl, ?_⟩
  · have h : parse_color "0.5,0.5,0.5" =
        ((((0 : Nat) : ℚ) + ((5 : Nat) : ℚ) / (10 : ℚ) ^ (1 : Nat),
          ((0 : Nat) : ℚ) + ((5 : Nat) : ℚ) / (10 : ℚ) ^ (1 : Nat),
          ((0 : Nat) : ℚ) + ((5 : Nat) : ℚ) / (10 : ℚ) ^ (1 : Nat)),
         false) := rfl
    rw [h]
    norm_num
  · intro s h
    rcases hp : parse_color s with ⟨c, b⟩
    rw [hp] at h
    simp only [parse_color] at hp
    split at hp
    · cases hp
      simp at h
    · split at hp
      · cases hp
        simp at h
      · split at hp
        · cases hp
          simp at h
        · cases hp
          rfl

/-- C9 witness: the universally quantified warning clause at the concrete
malformed value "not-a-color". -/
theorem C9_parse_color_witness :
    (parse_color "not-a-color").2 = true ∧
    (parse_color "not-a-color").1 = (0, 0, 0) :=
  ⟨rfl, C9_parse_color_spec.2.2.2.2 "not-a-color" rfl⟩

/-- C10: the running total always equals the sum of the per-term counts:
after any prefix of the page loop (any number of processed pages) the
accumulated total equals the sum of the stats values, and the returned
result satisfies `total_redactions = sum of stats values` on every path. -/
theorem C10_total_eq_sum_stats (eng : RegexEngine) (ad : Adapter)
    (input : String) (terms : List String) (cs : Bool) (fill : Color)
    (out : Option String) (u : Bool) :
    (∀ (texts : List String) (k : Nat),
      (runPages eng u cs fill terms (if cs then 0 else RE_IGNORECASE) 0
        (texts.take k) (initStats terms) 0).total =
      sumStats (runPages eng u cs fill terms
        (if cs then 0 else RE_IGNORECASE) 0 (texts.take k)
        (initStats terms) 0).stats) ∧
    (redact_pdf eng ad input terms cs fill out u).result.total_redactions =
      sumStats (redact_pdf eng ad input terms cs fill out u).result.stats := by
  have hrun : ∀ texts' : List String,
      (runPages eng u cs fill terms (if cs then 0 else RE_IGNORECASE) 0
        texts' (initStats terms) 0).total =
      sumStats (runPages eng u cs fill terms
        (if cs then 0 else RE_IGNORECASE) 0 texts'
        (initStats terms) 0).stats := by
    intro texts'
    have h := runPages_sum eng u cs fill terms
      (if cs then 0 else RE_IGNORECASE) texts' 0 (initStats terms) 0
      (by rw [initStats_keys]; exact nodup_dictKeys terms)
      (fun t ht => by
        rw [initStats_keys]
        exact (mem_dictKeys terms t).2 ht)
    have h0 := sumStats_initStats terms
    omega
  constructor
  · intro texts k
    exact hrun (texts.take k)
  · rcases ho : ad.openResult with e | texts
    · rw [redact_pdf_open_err _ _ _ _ _ _ _ _ _ ho]
      rfl
    · rcases hc2 : (if u then compileAll eng
          (if cs then 0 else RE_IGNORECASE) terms else
            (([], none) : List Event × Option (String × String))).2
        with _ | te
      · rcases hsv : ad.saveErr with _ | e
        · rw [redact_pdf_open_ok _ _ _ _ _ _ _ _ _ ho]
          unfold afterOpen
          rw [afterCompile_ok _ _ _ _ _ _ _ _ _ _ hc2,
            finishRun_ok _ _ _ _ hsv]
          exact hrun texts
        · rw [redact_pdf_open_ok _ _ _ _ _ _ _ _ _ ho]
          unfold afterOpen
          rw [afterCompile_ok _ _ _ _ _ _ _ _ _ _ hc2,
            finishRun_save_err _ _ _ _ _ hsv]
          rfl
      · rw [redact_pdf_open_ok _ _ _ _ _ _ _ _ _ ho]
        unfold afterOpen
        rw [afterCompile_err _ _ _ _ _ _ _ _ _ _ te.1 te.2 (by rw [hc2])]
        rfl

end Epsteinator
